import Mathlib

/-!
Verification of the script compiler/decompiler core of the
zanzarah-database-editor repository (file `zanzarah-database-editor.py`).

Python strings are modelled as `List Char`; the per-line loops of `compile`
and `decompile` are modelled as explicit recursions with accumulators, and
Python exceptions (`IndexError` from `arguments[i]`, `KeyError` from dict
indexing) are modelled by `Option`, with `none` marking a raised exception.
-/

set_option maxRecDepth 10000

/-- Python strings, modelled as lists of characters. -/
abbrev Str := List Char

/-- Characters treated as whitespace by Python's `str.strip()` (ASCII range). -/
def isPySpace (c : Char) : Bool :=
  c = ' ' || c = '\t' || c = '\n' || c = '\r' || c = '\x0b' || c = '\x0c'

/-- Python `str.strip()`: remove leading and trailing whitespace. -/
def pyStrip (s : Str) : Str :=
  ((s.dropWhile isPySpace).reverse.dropWhile isPySpace).reverse

/-- Python `str.split(sep)` for a one-character separator: split at every
occurrence of the separator, keeping empty pieces (`''.split('.') == ['']`).
`List.splitOn` has exactly these semantics. -/
def splitOnChar (sep : Char) (s : Str) : List Str := s.splitOn sep

/-- Tests whether `pat` is an initial segment of `s`
(Python `str.startswith`). -/
def startsWith : Str → Str → Bool
  | _, [] => true
  | [], _ :: _ => false
  | c :: cs, p :: ps => c = p && startsWith cs ps

/-- The end-of-line comment marker `//`. -/
def commentMarker : Str := ['/', '/']

/-- Python `line.split('//')[0]`: the text before the first occurrence of
the comment marker (the whole line when there is none). -/
def stripComment : Str → Str
  | [] => []
  | c :: rest =>
    if startsWith (c :: rest) commentMarker then []
    else c :: stripComment rest

/-- Source `splitByWhitespace` (line 214): `filter(None, string.split(' '))`.
Note that the original splits on the space character only, despite its name. -/
def splitByWhitespace (string : Str) : List Str :=
  (splitOnChar ' ' string).filter (fun t => !t.isEmpty)

/-- Python `str(n)` for a natural number. -/
def natToStr (n : Nat) : Str := (Nat.repr n).toList

/-- First value in an association list whose key equals `key`
(Python dict lookup; insertion order with unique keys). -/
def lookupS {α : Type} (dict : List (Str × α)) (key : Str) : Option α :=
  match dict.find? (fun p => p.1 == key) with
  | some p => some p.2
  | none => none

/-- Source `NONE_STRING` (line 60). -/
def NONE_STRING : Str := "-/-".toList

/-- Source `ELEMENT_CLASSES` (lines 61-63). -/
def ELEMENT_CLASSES : List Str :=
  [NONE_STRING, "Nature".toList, "Air".toList, "Water".toList, "Light".toList,
   "Energy".toList, "Psi".toList, "Stone".toList, "Ice".toList, "Fire".toList,
   "Dark".toList, "Chaos".toList, "Metal".toList, "✱".toList]

/-- Source `AVAILABLE_ANIMATIONS` (lines 519-527). -/
def AVAILABLE_ANIMATIONS : List Str :=
  ["Idle0".toList, "Jump".toList, "Run".toList, "RunForwardLeft".toList,
   "RunForwardRight".toList, "Back".toList, "Dance".toList, "Fall".toList,
   "Rotate".toList, "Right".toList, "Left".toList, "Idle1".toList,
   "Idle2".toList, "Talk0".toList, "Talk1".toList, "Talk2".toList,
   "Talk3".toList, "Walk0".toList, "Walk1".toList, "Walk2".toList,
   "SpecialIdle0".toList, "SpecialIdle1".toList, "SpecialIdle2".toList,
   "FlyForward".toList, "FlyBack".toList, "FlyLeft".toList,
   "FlyRight".toList, "Loadup".toList, "Hit".toList, "Joy".toList,
   "ThudGround".toList, "UseFairyPipe".toList, "UseSeaShell".toList,
   "Smith".toList, "Astonished".toList, "Surprise0".toList,
   "Surprise1".toList, "Stop".toList, "ThudGround2".toList,
   "PixieFlounder".toList, "JumpHigh".toList]

/-- Source `SCRIPT_COMMANDS` (lines 360-445): opcode to mnemonic. -/
def SCRIPT_COMMANDS : List (Str × Str) :=
  [("!".toList, "say".toList),
   ("C".toList, "setModel".toList),
   ("\"".toList, "choice".toList),
   ("#".toList, "waitForUser".toList),
   ("$".toList, "label".toList),
   ("&".toList, "setCamera".toList),
   ("%".toList, "exit".toList),
   ("\x27".toList, "wizform".toList),
   ("(".toList, "spell".toList),
   ("8".toList, "else".toList),
   (")".toList, "changeWaypoint".toList),
   ("*".toList, "fight".toList),
   ("+".toList, "lookAtPlayer".toList),
   (",".toList, "changeDatabase".toList),
   ("-".toList, "removeNpc".toList),
   (".".toList, "catchWizform".toList),
   ("0".toList, "killPlayer".toList),
   ("5".toList, "tradingCurrency".toList),
   ("2".toList, "tradingItem".toList),
   ("3".toList, "tradingSpell".toList),
   ("4".toList, "tradingWizform".toList),
   ("1".toList, "givePlayerCards".toList),
   ("B".toList, "setupGambling".toList),
   ("6".toList, "ifPlayerHasCards".toList),
   ("@".toList, "ifPlayerHasSpecials".toList),
   ("=".toList, "ifTriggerIsActive".toList),
   ("9".toList, "removePlayerCards".toList),
   (":".toList, "moveSystem".toList),
   ("?".toList, "movementSpeed".toList),
   (";".toList, "modifyWizform".toList),
   ("<".toList, "lockUserInput".toList),
   (">".toList, "modifyTrigger".toList),
   ("A".toList, "playAnimation".toList),
   ("D".toList, "ifIsWizform".toList),
   ("E".toList, "startPrelude".toList),
   ("F".toList, "npcWizFormEscapes".toList),
   ("G".toList, "dance".toList),
   ("H".toList, "setGlobal".toList),
   ("I".toList, "beginIf_global".toList),
   ("J".toList, "talk".toList),
   ("K".toList, "goto".toList),
   ("L".toList, "gotoRandomLabel".toList),
   ("M".toList, "ask".toList),
   ("N".toList, "chafferWizForms".toList),
   ("O".toList, "setNpcType".toList),
   ("P".toList, "deployNpcAtTrigger".toList),
   ("Q".toList, "delay".toList),
   ("R".toList, "gotoLabelByRandom".toList),
   ("S".toList, "ifCloseToWaypoint".toList),
   ("T".toList, "removeWizForms".toList),
   ("U".toList, "ifNpcModifierHasValue".toList),
   ("V".toList, "setNpcModifier".toList),
   ("W".toList, "defaultWizForm".toList),
   ("X".toList, "idle".toList),
   ("Y".toList, "ifPlayerIsClose".toList),
   ("Z".toList, "ifNumberOfNpcsIs".toList),
   ("[".toList, "startEffect".toList),
   ("\\".toList, "setTalkLabels".toList),
   ("]".toList, "setCollision".toList),
   ("^".toList, "tradeWizform".toList),
   ("_".toList, "createDynamicItems".toList),
   ("`".toList, "playVideo".toList),
   ("a".toList, "removeNpcAtTrigger".toList),
   ("b".toList, "revive".toList),
   ("c".toList, "lookAtTrigger".toList),
   ("d".toList, "ifTriggerIsEnabled".toList),
   ("e".toList, "playSound".toList),
   ("f".toList, "playInArena".toList),
   ("g".toList, "startActorEffect".toList),
   ("h".toList, "endActorEffect".toList),
   ("i".toList, "createSceneObjects".toList),
   ("j".toList, "evolveWizForm".toList),
   ("k".toList, "removeBehaviour".toList),
   ("l".toList, "unlockDoor".toList),
   ("m".toList, "endGame".toList),
   ("n".toList, "defaultDeck".toList),
   ("o".toList, "subGame".toList),
   ("p".toList, "modifyEffect".toList),
   ("q".toList, "playPlayerAnimation".toList),
   ("s".toList, "playAmyVoice".toList),
   ("r".toList, "createDynamicModel".toList),
   ("t".toList, "deploySound".toList),
   ("u".toList, "givePlayerPresent".toList),
   ("7".toList, "endIf".toList)]

/-- Source `REVERSE_SCRIPT_COMMANDS` (lines 446-448): mnemonic to opcode,
built by swapping every entry of `SCRIPT_COMMANDS`. -/
def REVERSE_SCRIPT_COMMANDS : List (Str × Str) :=
  SCRIPT_COMMANDS.map (fun p => (p.2, p.1))

/-- Source `script_command_parameters` (lines 451-515).  All commands not in
this dictionary take zero arguments. -/
def script_command_parameters : List (Str × List Str) :=
  [("label".toList, ["id".toList]),
   ("goto".toList, ["labelId".toList]),
   ("gotoRandomLabel".toList, ["int".toList, "int".toList]),
   ("say".toList, ["dialogUid".toList, "silent".toList]),
   ("setModel".toList, ["id".toList]),
   ("choice".toList, ["ladelId".toList, "uid".toList]),
   ("setCamera".toList, ["code".toList]),
   ("wizform".toList, ["deckSlot".toList, "fairyId".toList, "level".toList]),
   ("spell".toList, ["deckSlot".toList, "spellSlot".toList, "spellId".toList]),
   ("changeWaypoint".toList, ["startId".toList, "endId".toList]),
   ("fight".toList, ["sceneId".toList, "multipleEnemiesBool".toList]),
   ("lookAtPlayer".toList, ["seconds/10".toList, "mode".toList]),
   ("changeDatabase".toList, ["uid".toList]),
   ("tradingCurrency".toList, ["uid".toList]),
   ("tradingItem".toList, ["price".toList, "uid".toList]),
   ("tradingSpell".toList, ["price".toList, "uid".toList]),
   ("tradingWizform".toList, ["price".toList, "uid".toList]),
   ("givePlayerCards".toList, ["amount".toList, "cardType".toList, "id".toList]),
   ("setupGambling".toList, ["amount".toList, "cardType".toList, "id".toList]),
   ("ifPlayerHasCards".toList, ["amount".toList, "cardType".toList, "id".toList]),
   ("ifPlayerHasSpecials".toList, ["condition".toList, "argument".toList]),
   ("ifTriggerIsActive".toList, ["id".toList]),
   ("ifIsWizform".toList, ["fairyId".toList]),
   ("removePlayerCards".toList, ["amount".toList, "cardType".toList, "id".toList]),
   ("moveSystem".toList, ["waypointMode".toList, "waypointCategory".toList]),
   ("movementSpeed".toList, ["int".toList]),
   ("modifyWizform".toList, ["subcommand".toList, "argument".toList]),
   ("lockUserInput".toList, ["bool".toList]),
   ("modifyTrigger".toList, ["enable".toList, "id".toList, "triggerId".toList]),
   ("playAnimation".toList, ["animationType".toList, "UNUSED".toList]),
   ("talk".toList, ["uid".toList]),
   ("chafferWizForms".toList, ["uid1".toList, "uid2".toList, "uid3".toList]),
   ("setNpcType".toList, ["int".toList]),
   ("deployNpcAtTrigger".toList, ["id".toList, "NpcOrPlayerBool".toList]),
   ("delay".toList, ["duration".toList]),
   ("ifCloseToWaypoint".toList, ["waypointId".toList]),
   ("ifNpcModifierHasValue".toList, ["id".toList]),
   ("setNpcModifier".toList, ["scene".toList, "triggerId".toList, "value".toList]),
   ("defaultWizForm".toList, ["fairyId".toList, "groupOrSlot".toList, "level".toList]),
   ("ifPlayerIsClose".toList, ["distance".toList]),
   ("ifNumberOfNpcsIs".toList, ["amount".toList, "uid".toList]),
   ("startEffect".toList, ["effectType".toList, "triggerId".toList]),
   ("setTalkLabels".toList, ["yes".toList, "no".toList, "talkMode".toList]),
   ("setCollision".toList, ["isSolidBool".toList]),
   ("tradeWizform".toList, ["id".toList]),
   ("createDynamicItems".toList, ["itemId".toList, "count".toList, "triggerId".toList]),
   ("playVideo".toList, ["videoId".toList]),
   ("removeNpcAtTrigger".toList, ["triggerId".toList]),
   ("lookAtTrigger".toList, ["duration".toList, "triggerId".toList]),
   ("ifTriggerIsEnabled".toList, ["triggerId".toList]),
   ("playSound".toList, ["soundId".toList]),
   ("playInArena".toList, ["arg".toList, "UNUSED".toList]),
   ("createSceneObjects".toList, ["objectType".toList]),
   ("removeBehaviour".toList, ["id".toList]),
   ("unlockDoor".toList, ["id".toList, "isMetalDoorBool".toList]),
   ("defaultDeck".toList, ["groupId".toList, "level".toList, "UNUSED".toList]),
   ("subGame".toList, ["gameType".toList, "size".toList, "exitLabel".toList]),
   ("playPlayerAnimation".toList, ["animationType".toList, "UNUSED".toList]),
   ("playAmyVoice".toList, ["string".toList]),
   ("createDynamicModel".toList, ["UNUSED".toList, "UNUSED".toList, "UNUSED".toList]),
   ("deploySound".toList, ["id".toList, "triggerId".toList]),
   ("givePlayerPresent".toList, ["UNUSED".toList]),
   ("startActorEffect".toList, ["id".toList])]

/-- Source `makeError` (lines 530-531). -/
def makeError (line_counter : Nat) (message : Str) : Str :=
  "Line ".toList ++ natToStr (line_counter + 1) ++ ": ".toList ++ message

/-- Result type of `compile`: `[True, packed]` or `[False, errors]`. -/
inductive CompileResult where
  | ok (packed : Str)
  | err (errors : List Str)
deriving DecidableEq

/-- Outcome of the compile loop body for one line (before the loop appends
the optional newline separator and the error's line prefix): a blank or
comment-only line contributes nothing, an erroneous line contributes a
message, a successful line contributes its packed chunk. -/
inductive LineStep where
  | skip
  | emit (chunk : Str)
  | fail (message : Str)
deriving DecidableEq

/-- Per-line body of the `compile` loop (lines 544-573): strip the comment,
tokenize, check the command and its arity, and build the packed chunk
`opcode [. args-joined-with-.]`. -/
def compileStep (line : Str) : LineStep :=
  let line_without_comments := stripComment line
  let tokens := splitByWhitespace line_without_comments
  match tokens with
  | [] => .skip
  | t0 :: args =>
    match lookupS REVERSE_SCRIPT_COMMANDS t0 with
    | none => .fail ("Unknown command: ".toList ++ t0)
    | some opcode =>
      match lookupS script_command_parameters t0 with
      | some parameters =>
        if args.length ≠ parameters.length then
          .fail ("Command ".toList ++ t0 ++ " takes exactly ".toList ++
                 natToStr parameters.length ++ " arguments: ".toList ++
                 List.intercalate ", ".toList parameters)
        else
          .emit (opcode ++ (if 0 < args.length then ['.'] else []) ++
                 List.intercalate ['.'] args)
      | none =>
        if args.length ≠ 0 then
          .fail ("Command takes no arguments: ".toList ++ t0)
        else
          .emit (opcode ++ (if 0 < args.length then ['.'] else []) ++
                 List.intercalate ['.'] args)

/-- The `for index, line in enumerate(...)` loop of `compile` (lines
542-573), accumulating the packed output and the error list.  A newline is
prepended to a successful chunk exactly when the line's physical index is
positive. -/
def compileLoop : Nat → List Str → Str → List Str → Str × List Str
  | _, [], output, errors => (output, errors)
  | index, line :: rest, output, errors =>
    match compileStep line with
    | .skip => compileLoop (index + 1) rest output errors
    | .fail m => compileLoop (index + 1) rest output (errors ++ [makeError index m])
    | .emit chunk =>
      compileLoop (index + 1) rest
        (output ++ (if 0 < index then ['\n'] else []) ++ chunk) errors

/-- Source `compile` (lines 534-577). -/
def compile (script : Str) : CompileResult :=
  let result := compileLoop 0 (splitOnChar '\n' script) [] []
  if result.2.length = 0 then .ok (result.1 ++ ['\n']) else .err result.2

/-- The external SQL-backed lookups used by the annotation engine
(`resolveFairyName`, the two `resolveCardIdName` queries of
`resolveCardDescription`, and `resolveDialog`), abstracted as total
string-valued functions. -/
structure Resolver where
  fairyName : Str → Str
  itemName : Str → Str
  spellName : Str → Str
  dialog : Str → Str

/-- Source `resolveCardDescription` (lines 319-335), with the three
database queries abstracted into the resolver. -/
def resolveCardDescription (r : Resolver) (card_type card_id : Str) : Str :=
  if card_type = "0".toList then "Item: ".toList ++ r.itemName card_id
  else if card_type = "1".toList then "Spell: ".toList ++ r.spellName card_id
  else if card_type = "2".toList then "Fairy: ".toList ++ r.fairyName card_id
  else if card_type = "3".toList then "Blank".toList
  else "NULL".toList

/-- Value of a decimal digit character, if it is one. -/
def digitVal (c : Char) : Option Nat :=
  if '0' ≤ c && c ≤ '9' then some (c.toNat - '0'.toNat) else none

/-- Parses a nonempty all-digit string. -/
def parseDigits : Str → Option Nat
  | [] => none
  | [c] => digitVal c
  | c :: rest =>
    match digitVal c, parseDigits rest with
    | some d, some n => some (d * 10 ^ rest.length + n)
    | _, _ => none

/-- Python `int(string)`: surrounding whitespace, an optional sign and
decimal digits (the underscore digit grouping of Python 3.6+ is not
modelled); `none` models a raised `ValueError`. -/
def parsePyInt (s : Str) : Option Int :=
  match pyStrip s with
  | '-' :: rest => (parseDigits rest).map (fun n => -(n : Int))
  | '+' :: rest => (parseDigits rest).map (fun n => (n : Int))
  | t => (parseDigits t).map (fun n => (n : Int))

/-- Source `indexListByMaybeInt` (lines 612-619): bounds-checked list
indexing by a possibly-non-numeric string, degrading to `'NULL'`. -/
def indexListByMaybeInt (string_list : List Str) (maybe_integer : Str) : Str :=
  match parsePyInt maybe_integer with
  | some index =>
    if 0 ≤ index && index < (string_list.length : Int) then
      string_list.getD index.toNat []
    else "NULL".toList
  | none => "NULL".toList

/-- Source `makeActorEffectComment` (lines 692-698). -/
def makeActorEffectComment (id_argument : Str) : Str :=
  if id_argument = "0".toList then "; Rain clouds with lightning".toList
  else if id_argument = "1".toList then "; Orange sphere".toList
  else []

/-- Source `makeDecompiledSpecialsComment` (lines 677-689); `none` models
the `IndexError` raised when an accessed argument is missing. -/
def makeDecompiledSpecialsComment (arguments : List Str) : Option Str :=
  match arguments.get? 0 with
  | none => none
  | some a0 =>
    if a0 = "1".toList then
      match arguments.get? 1 with
      | none => none
      | some a1 =>
        some ("; Player has".toList ++
              (if a1 = "0".toList then " no".toList else []) ++
              " Fairy in Deck".toList)
    else if a0 = "2".toList then
      some "; Player has at least n fairies".toList
    else if a0 = "3".toList then
      match arguments.get? 1 with
      | none => none
      | some a1 =>
        some ("; Player can show ".toList ++
              indexListByMaybeInt ELEMENT_CLASSES a1 ++ " Fairy".toList)
    else some []

/-- The `subcommand_descriptions` dictionary local to
`makeDecompiledParameterComment` (lines 643-651). -/
def subcommand_descriptions : List (Str × Str) :=
  [("0".toList, "; Heal".toList),
   ("1".toList, "; Add exp".toList),
   ("2".toList, "; Clear status effects".toList),
   ("8".toList, "; Add exp to almost next level".toList),
   ("16".toList, "; Revive fairy".toList),
   ("17".toList, "; Fill up mana".toList),
   ("18".toList, "; Rename fairy".toList)]

/-- The `modes` dictionary local to the `lookAtPlayer` branch
(lines 660-665). -/
def lookAtModes : List (Str × Str) :=
  [("-1".toList, "Idle: Don\x27t look at player".toList),
   ("1".toList, "Rotate to player".toList),
   ("2".toList, "Rotate to player smoothly".toList),
   ("3".toList, "Rotate to player like a billboard".toList)]

/-- Source `makeDecompiledParameterComment` (lines 622-674); `none` models
a raised `IndexError` when a branch accesses a missing argument. -/
def makeDecompiledParameterComment (command : Str) (arguments : List Str)
    (r : Resolver) : Option Str :=
  match lookupS script_command_parameters command with
  | none => none
  | some parameter_names =>
    let result := " // ".toList ++ List.intercalate ", ".toList parameter_names
    if command = "wizform".toList then
      match arguments.get? 1 with
      | none => none
      | some a1 => some (result ++ "; ".toList ++ r.fairyName a1)
    else if command = "defaultWizForm".toList || command = "ifIsWizform".toList then
      match arguments.get? 0 with
      | none => none
      | some a0 => some (result ++ "; ".toList ++ r.fairyName a0)
    else if command = "say".toList || command = "talk".toList then
      match arguments.get? 0 with
      | none => none
      | some a0 => some (result ++ "; ".toList ++ r.dialog a0)
    else if command = "choice".toList then
      match arguments.get? 1 with
      | none => none
      | some a1 => some (result ++ "; ".toList ++ r.dialog a1)
    else if command = "givePlayerCards".toList || command = "setupGambling".toList ||
            command = "ifPlayerHasCards".toList || command = "removePlayerCards".toList then
      match arguments.get? 1, arguments.get? 2 with
      | some a1, some a2 =>
        some (result ++ "; ".toList ++ resolveCardDescription r a1 a2)
      | _, _ => none
    else if command = "modifyWizform".toList then
      match arguments.get? 0 with
      | none => none
      | some a0 =>
        if a0 = "7".toList then
          match arguments.get? 1 with
          | none => none
          | some a1 => some (result ++ "; Evolve to ".toList ++ r.fairyName a1)
        else
          match lookupS subcommand_descriptions a0 with
          | some d => some (result ++ "; ".toList ++ d)
          | none => some result
    else if command = "ifPlayerHasSpecials".toList then
      match makeDecompiledSpecialsComment arguments with
      | none => none
      | some c => some (result ++ c)
    else if command = "lookAtPlayer".toList then
      match arguments.get? 1 with
      | none => none
      | some a1 =>
        match lookupS lookAtModes a1 with
        | some m => some (result ++ "; ".toList ++ m)
        | none => some result
    else if command = "playAnimation".toList || command = "playPlayerAnimation".toList then
      match arguments.get? 0 with
      | none => none
      | some a0 =>
        some (result ++ "; Animation: ".toList ++
              indexListByMaybeInt AVAILABLE_ANIMATIONS a0)
    else if command = "startActorEffect".toList then
      match arguments.get? 0 with
      | none => none
      | some a0 => some (result ++ makeActorEffectComment a0)
    else some result

/-- Per-line body of the `decompile` loop (lines 590-608): tokenize the
packed line on dots, pass unrecognized lines through verbatim, otherwise
emit indentation, mnemonic, space-joined arguments and the annotation
comment, and update the indentation depth.  Returns the emitted
newline-terminated chunk and the new indentation, or `none` when the
annotation raises. -/
def decompileLine (r : Resolver) (indentation : Nat) (line : Str) :
    Option (Str × Nat) :=
  let tokens := splitOnChar '.' (pyStrip line)
  match tokens with
  | [] => some (line ++ ['\n'], indentation)
  | t0 :: rest =>
    match lookupS SCRIPT_COMMANDS t0 with
    | none => some (line ++ ['\n'], indentation)
    | some command =>
      let ind1 := if command = "endIf".toList then max (indentation - 4) 0
                  else indentation
      let head := (if command ≠ "else".toList then List.replicate ind1 ' '
                   else []) ++ command
      let withArgs := head ++ (if 0 < rest.length then
                                 ' ' :: List.intercalate [' '] rest
                               else [])
      let ind2 := if startsWith command "if".toList then ind1 + 4 else ind1
      match lookupS script_command_parameters command with
      | none => some (withArgs ++ ['\n'], ind2)
      | some _ =>
        match makeDecompiledParameterComment command rest r with
        | none => none
        | some comment => some (withArgs ++ comment ++ ['\n'], ind2)

/-- The `for line in script.split('\n')` loop of `decompile`, threading the
indentation depth and the accumulated result. -/
def decompileLoop (r : Resolver) : Nat → List Str → Str → Option Str
  | _, [], result => some result
  | indentation, line :: rest, result =>
    match decompileLine r indentation line with
    | none => none
    | some (chunk, ind) => decompileLoop r ind rest (result ++ chunk)

/-- Source `decompile` (lines 587-609); `none` models an uncaught
exception escaping the call. -/
def decompile (r : Resolver) (script : Str) : Option Str :=
  decompileLoop r 0 (splitOnChar '\n' script) []

/-- A resolver whose every lookup misses, mirroring `fetchStringOrNull`
returning `'NULL'` for absent rows. -/
def nullResolver : Resolver where
  fairyName := fun _ => "NULL".toList
  itemName := fun _ => "NULL".toList
  spellName := fun _ => "NULL".toList
  dialog := fun _ => "NULL".toList

/-- A resolver returns only newline-free strings.  Every SQL-backed resolver
value is displayed on the line it annotates, so this is the intended
environment assumption. -/
def resolverNF (r : Resolver) : Prop :=
  ∀ s : Str, '\n' ∉ r.fairyName s ∧ '\n' ∉ r.itemName s ∧
    '\n' ∉ r.spellName s ∧ '\n' ∉ r.dialog s

/-- The token view of a source line: comment stripped, then split on
spaces, exactly as the compiler reads it (lines 545-546). -/
def sourceTokens (line : Str) : List Str :=
  splitByWhitespace (stripComment line)

/-- Modelled from the spec: the error message a single line contributes
(without its `Line N:` prefix), or `none` when the line is accepted.  Used
to state the batch-error contract of `compile`. -/
def lineError (line : Str) : Option Str :=
  match compileStep line with
  | .fail m => some m
  | _ => none

/-- Modelled from the spec: the full ordered list of line-numbered error
messages of a script, one per erroneous physical line, in line order with
1-based numbering. -/
def errList (script : Str) : List Str :=
  ((splitOnChar '\n' script).enum).filterMap
    (fun p => (lineError p.2).map (makeError p.1))

/-- An argument token that survives both transport formats: nonempty, free
of whitespace (so space-joining and `strip` preserve it), of `.` (the
packed separator) and of `/` (so it cannot open a comment). -/
def cleanToken (t : Str) : Bool :=
  !t.isEmpty && t.all (fun c => !isPySpace c && c ≠ '.' && c ≠ '/')

/-- A source line that is a known mnemonic with exactly its required number
of clean argument tokens, whose opcode is not the `.` character
(`catchWizform`'s opcode collides with the packed argument separator). -/
def goodLine (line : Str) : Bool :=
  match sourceTokens line with
  | [] => false
  | t0 :: args =>
    match lookupS REVERSE_SCRIPT_COMMANDS t0 with
    | none => false
    | some op =>
      decide (op ≠ ".".toList) &&
      (match lookupS script_command_parameters t0 with
       | some ps => args.length == ps.length
       | none => args.isEmpty) &&
      args.all cleanToken

/-- A packed line whose recognized command carries at least its registered
number of dot-separated arguments (unrecognized lines are always fine). -/
def arityOkLine (line : Str) : Bool :=
  match splitOnChar '.' (pyStrip line) with
  | [] => true
  | t0 :: rest =>
    match lookupS SCRIPT_COMMANDS t0 with
    | none => true
    | some command =>
      match lookupS script_command_parameters command with
      | none => true
      | some ps => ps.length ≤ rest.length

/-- The command content of a script, comments and indentation removed: the
token lists of its non-blank lines. -/
def extractCommands (text : Str) : List (List Str) :=
  ((splitOnChar '\n' text).map sourceTokens).filter (fun t => !t.isEmpty)

/-- Whether the comment marker `//` occurs anywhere in the string. -/
def hasMarker : Str → Bool
  | [] => false
  | c :: rest => startsWith (c :: rest) commentMarker || hasMarker rest

/-- The packed chunk a good source line compiles to: its opcode, followed by
a dot and the dot-joined argument tokens when there are any (empty for lines
that do not compile cleanly; used only under a `goodLine` hypothesis). -/
def packChunk (line : Str) : Str :=
  match sourceTokens line with
  | [] => []
  | t0 :: args =>
    match lookupS REVERSE_SCRIPT_COMMANDS t0 with
    | none => []
    | some op => op ++ (if 0 < args.length then ['.'] else []) ++
        List.intercalate ['.'] args

/-! ### Generic lemmas about the string primitives -/

theorem splitOnChar_nil (sep : Char) : splitOnChar sep [] = [[]] := rfl

theorem splitOnChar_cons (sep c : Char) (s : Str) :
    splitOnChar sep (c :: s) =
      if c = sep then [] :: splitOnChar sep s
      else (splitOnChar sep s).modifyHead (List.cons c) := by
  simp only [splitOnChar, List.splitOn, List.splitOnP_cons, beq_iff_eq]

theorem splitOnChar_ne_nil (sep : Char) (s : Str) : splitOnChar sep s ≠ [] := by
  simpa [splitOnChar, List.splitOn] using List.splitOnP_ne_nil _ s

theorem splitOnChar_eq_single {sep : Char} {s : Str} (h : sep ∉ s) :
    splitOnChar sep s = [s] := by
  refine List.splitOnP_eq_single _ _ ?_
  intro x hx
  simp only [beq_iff_eq]
  intro hxe
  exact h (hxe ▸ hx)

theorem splitOnChar_intercalate {sep : Char} {parts : List Str}
    (h : ∀ t ∈ parts, sep ∉ t) (hne : parts ≠ []) :
    splitOnChar sep (List.intercalate [sep] parts) = parts :=
  List.splitOn_intercalate parts sep h hne

theorem splitOnChar_length (sep : Char) (s : Str) :
    (splitOnChar sep s).length = s.count sep + 1 := by
  induction s with
  | nil => rfl
  | cons c rest ih =>
    rw [splitOnChar_cons]
    by_cases hc : c = sep
    · subst hc
      simp [List.count_cons, ih]
    · simp [List.count_cons, hc, ih]

theorem splitOnChar_append_sep (sep : Char) (s : Str) :
    splitOnChar sep (s ++ [sep]) = splitOnChar sep s ++ [[]] := by
  induction s with
  | nil => simp [splitOnChar_cons, splitOnChar_nil]
  | cons c rest ih =>
    rw [List.cons_append, splitOnChar_cons, splitOnChar_cons, ih]
    by_cases hc : c = sep
    · simp [hc]
    · simp only [hc, if_false]
      obtain ⟨t, ts, hts⟩ : ∃ t ts, splitOnChar sep rest = t :: ts := by
        cases h : splitOnChar sep rest with
        | nil => exact absurd h (splitOnChar_ne_nil sep rest)
        | cons t ts => exact ⟨t, ts, rfl⟩
      rw [hts]
      rfl

theorem splitOnChar_sep_notMem {sep : Char} {s : Str} {t : Str}
    (ht : t ∈ splitOnChar sep s) : sep ∉ t := by
  induction s generalizing t with
  | nil =>
    rw [splitOnChar_nil] at ht
    rcases List.mem_singleton.mp ht with rfl
    exact List.not_mem_nil sep
  | cons c rest ih =>
    rw [splitOnChar_cons] at ht
    by_cases hc : c = sep
    · rw [if_pos hc] at ht
      rcases List.mem_cons.mp ht with rfl | ht'
      · exact List.not_mem_nil sep
      · exact ih ht'
    · rw [if_neg hc] at ht
      obtain ⟨u, us, hus⟩ : ∃ u us, splitOnChar sep rest = u :: us := by
        cases h : splitOnChar sep rest with
        | nil => exact absurd h (splitOnChar_ne_nil sep rest)
        | cons u us => exact ⟨u, us, rfl⟩
      rw [hus] at ht
      have humem : u ∈ splitOnChar sep rest := by
        rw [hus]; exact List.mem_cons_self u us
      rcases List.mem_cons.mp ht with rfl | ht'
      · intro hmem
        rcases List.mem_cons.mp hmem with rfl | hmem'
        · exact hc rfl
        · exact ih humem hmem'
      · have htmem : t ∈ splitOnChar sep rest := by
          rw [hus]; exact List.mem_cons_of_mem u ht'
        exact ih htmem

theorem splitOnChar_mem_mem {sep : Char} {s t : Str} {c : Char}
    (ht : t ∈ splitOnChar sep s) (hc : c ∈ t) : c ∈ s := by
  induction s generalizing t with
  | nil =>
    rw [splitOnChar_nil] at ht
    rcases List.mem_singleton.mp ht with rfl
    exact absurd hc (List.not_mem_nil c)
  | cons d rest ih =>
    rw [splitOnChar_cons] at ht
    by_cases hd : d = sep
    · rw [if_pos hd] at ht
      rcases List.mem_cons.mp ht with rfl | ht'
      · exact absurd hc (List.not_mem_nil c)
      · exact List.mem_cons_of_mem d (ih ht' hc)
    · rw [if_neg hd] at ht
      obtain ⟨u, us, hus⟩ : ∃ u us, splitOnChar sep rest = u :: us := by
        cases h : splitOnChar sep rest with
        | nil => exact absurd h (splitOnChar_ne_nil sep rest)
        | cons u us => exact ⟨u, us, rfl⟩
      rw [hus] at ht
      have humem : u ∈ splitOnChar sep rest := by
        rw [hus]; exact List.mem_cons_self u us
      rcases List.mem_cons.mp ht with rfl | ht'
      · rcases List.mem_cons.mp hc with rfl | hc'
        · exact List.mem_cons_self c rest
        · exact List.mem_cons_of_mem d (ih humem hc')
      · have htmem : t ∈ splitOnChar sep rest := by
          rw [hus]; exact List.mem_cons_of_mem u ht'
        exact List.mem_cons_of_mem d (ih htmem hc)

theorem splitOnChar_exists_mem {sep : Char} {s : Str} {c : Char}
    (hc : c ∈ s) (hne : c ≠ sep) : ∃ t ∈ splitOnChar sep s, c ∈ t := by
  induction s with
  | nil => exact absurd hc (List.not_mem_nil c)
  | cons d rest ih =>
    rw [splitOnChar_cons]
    by_cases hd : d = sep
    · rw [if_pos hd]
      rcases List.mem_cons.mp hc with rfl | hc'
      · exact absurd hd hne
      · obtain ⟨t, htmem, htc⟩ := ih hc'
        exact ⟨t, List.mem_cons_of_mem [] htmem, htc⟩
    · rw [if_neg hd]
      obtain ⟨u, us, hus⟩ : ∃ u us, splitOnChar sep rest = u :: us := by
        cases h : splitOnChar sep rest with
        | nil => exact absurd h (splitOnChar_ne_nil sep rest)
        | cons u us => exact ⟨u, us, rfl⟩
      rw [hus]
      rcases List.mem_cons.mp hc with rfl | hc'
      · exact ⟨c :: u, List.mem_cons_self _ us, List.mem_cons_self c u⟩
      · obtain ⟨t, htmem, htc⟩ := ih hc'
        rw [hus] at htmem
        rcases List.mem_cons.mp htmem with rfl | ht'
        · exact ⟨d :: t, List.mem_cons_self _ us, List.mem_cons_of_mem d htc⟩
        · exact ⟨t, List.mem_cons_of_mem _ ht', htc⟩

theorem startsWith_marker (c : Char) (s : Str) :
    startsWith (c :: s) commentMarker =
      (decide (c = '/') && startsWith s ['/']) := rfl

theorem stripComment_of_no_marker {s : Str} (h : hasMarker s = false) :
    stripComment s = s := by
  induction s with
  | nil => rfl
  | cons c rest ih =>
    rw [hasMarker, Bool.or_eq_false_iff] at h
    rw [stripComment, if_neg (by simp [h.1]), ih h.2]

theorem hasMarker_of_no_slash {s : Str} (h : ∀ c ∈ s, c ≠ '/') :
    hasMarker s = false := by
  induction s with
  | nil => rfl
  | cons c rest ih =>
    rw [hasMarker, Bool.or_eq_false_iff]
    constructor
    · rw [startsWith_marker]
      simp [h c (List.mem_cons_self c rest)]
    · exact ih (fun d hd => h d (List.mem_cons_of_mem c hd))

theorem startsWith_slash (s : Str) :
    startsWith s ['/'] = decide (s.head? = some '/') := by
  cases s with
  | nil => simp [startsWith]
  | cons c cs => simp [startsWith]

theorem startsWith_slash_append (a u v : Str) (h : u.head? = v.head?) :
    startsWith (a ++ u) ['/'] = startsWith (a ++ v) ['/'] := by
  rw [startsWith_slash, startsWith_slash]
  cases a with
  | nil => rw [List.nil_append, List.nil_append, h]
  | cons x a' => rw [List.cons_append, List.cons_append]; rfl

theorem stripComment_before_marker (a rest : Str)
    (h : hasMarker (a ++ [' ']) = false) :
    stripComment (a ++ ' ' :: '/' :: '/' :: rest) = a ++ [' '] := by
  induction a with
  | nil =>
    rw [List.nil_append, List.nil_append, stripComment,
        if_neg (by rw [startsWith_marker]; simp)]
    rw [stripComment, if_pos (by rw [startsWith_marker]; simp [startsWith])]
  | cons c a' ih =>
    rw [show (c :: a') ++ [' '] = c :: (a' ++ [' ']) from rfl, hasMarker,
        Bool.or_eq_false_iff] at h
    have hfalse : startsWith (c :: (a' ++ ' ' :: '/' :: '/' :: rest))
        commentMarker = false := by
      rw [startsWith_marker]
      have h1 := h.1
      rw [startsWith_marker] at h1
      rwa [startsWith_slash_append a' (' ' :: '/' :: '/' :: rest) [' '] rfl]
    rw [List.cons_append, List.cons_append, stripComment,
        if_neg (by simp [hfalse]), ih h.2]

theorem splitByWhitespace_space_cons (s : Str) :
    splitByWhitespace (' ' :: s) = splitByWhitespace s := by
  rw [splitByWhitespace, splitByWhitespace, splitOnChar_cons, if_pos rfl,
      List.filter_cons]
  simp

theorem splitByWhitespace_replicate (n : Nat) (s : Str) :
    splitByWhitespace (List.replicate n ' ' ++ s) = splitByWhitespace s := by
  induction n with
  | zero => rw [List.replicate_zero, List.nil_append]
  | succ m ih =>
    rw [List.replicate_succ, List.cons_append, splitByWhitespace_space_cons, ih]

theorem splitByWhitespace_append_space (s : Str) :
    splitByWhitespace (s ++ [' ']) = splitByWhitespace s := by
  rw [splitByWhitespace, splitByWhitespace, splitOnChar_append_sep,
      List.filter_append]
  simp

theorem splitByWhitespace_intercalate {ts : List Str}
    (h : ∀ t ∈ ts, t ≠ [] ∧ ' ' ∉ t) (hne : ts ≠ []) :
    splitByWhitespace (List.intercalate [' '] ts) = ts := by
  rw [splitByWhitespace, splitOnChar_intercalate (fun t ht => (h t ht).2) hne]
  rw [List.filter_eq_self.mpr]
  intro t ht
  simpa using (h t ht).1

theorem splitByWhitespace_single {t : Str} (h : t ≠ []) (h2 : ' ' ∉ t) :
    splitByWhitespace t = [t] := by
  rw [splitByWhitespace, splitOnChar_eq_single h2, List.filter_cons]
  simpa using h

theorem dropWhile_no {p : Char → Bool} {s : Str} (h : ∀ c ∈ s, p c = false) :
    s.dropWhile p = s := by
  cases s with
  | nil => rfl
  | cons c rest =>
    rw [List.dropWhile_cons, if_neg (by simp [h c (List.mem_cons_self c rest)])]

theorem pyStrip_eq_self {s : Str} (h : ∀ c ∈ s, isPySpace c = false) :
    pyStrip s = s := by
  rw [pyStrip, dropWhile_no h,
      dropWhile_no (fun c hc => h c (List.mem_reverse.mp hc)),
      List.reverse_reverse]

theorem mem_of_mem_dropWhile {p : Char → Bool} {c : Char} {s : Str}
    (h : c ∈ s.dropWhile p) : c ∈ s := by
  induction s with
  | nil => simp at h
  | cons d rest ih =>
    rw [List.dropWhile_cons] at h
    by_cases hd : p d = true
    · rw [if_pos hd] at h
      exact List.mem_cons_of_mem d (ih h)
    · rw [if_neg hd] at h
      exact h

theorem mem_of_mem_pyStrip {c : Char} {s : Str} (h : c ∈ pyStrip s) : c ∈ s := by
  rw [pyStrip, List.mem_reverse] at h
  have h2 := mem_of_mem_dropWhile h
  rw [List.mem_reverse] at h2
  exact mem_of_mem_dropWhile h2

theorem lookupS_eq_some_mem {α : Type} {d : List (Str × α)} {k : Str} {v : α}
    (h : lookupS d k = some v) : (k, v) ∈ d := by
  unfold lookupS at h
  cases hf : d.find? (fun p => p.1 == k) with
  | none => rw [hf] at h; exact absurd h (by simp)
  | some p =>
    rw [hf] at h
    obtain ⟨p1, p2⟩ := p
    have hkey : p1 = k := by simpa using List.find?_some hf
    have hval : p2 = v := by simpa using h
    subst hkey
    subst hval
    exact List.mem_of_find?_eq_some hf

theorem lookupS_of_mem_nodup {α : Type} {d : List (Str × α)} {k : Str} {v : α}
    (hnd : (d.map Prod.fst).Nodup) (h : (k, v) ∈ d) : lookupS d k = some v := by
  induction d with
  | nil => cases h
  | cons p rest ih =>
    rw [List.map_cons, List.nodup_cons] at hnd
    rcases List.mem_cons.mp h with rfl | hmem
    · unfold lookupS
      rw [List.find?_cons_of_pos _ (by simp)]
    · have hk : ¬(p.1 == k) = true := by
        simp only [beq_iff_eq]
        intro he
        apply hnd.1
        rw [he]
        exact List.mem_map_of_mem Prod.fst hmem
      unfold lookupS
      rw [List.find?_cons]
      have hkb : (p.1 == k) = false := by
        simpa using hk
      rw [hkb]
      exact ih hnd.2 hmem

/-! ### Decidable facts about the static command tables -/

theorem script_commands_facts :
    SCRIPT_COMMANDS.all (fun p =>
      p.1.length == 1 &&
      p.1.all (fun c => !isPySpace c) &&
      !p.2.isEmpty &&
      p.2.all (fun c => !isPySpace c && c ≠ '.' && c ≠ '/')) = true := by decide

theorem script_commands_keys_nodup : (SCRIPT_COMMANDS.map Prod.fst).Nodup := by
  decide

theorem params_facts :
    script_command_parameters.all (fun p =>
      decide (0 < p.2.length) &&
      (lookupS REVERSE_SCRIPT_COMMANDS p.1).isSome &&
      p.2.all (fun name => name.all (fun c => c ≠ '\n'))) = true := by decide

/-! ### Per-line and loop lemmas for the compiler -/

theorem compileStep_of_skip {line : Str} (h : sourceTokens line = []) :
    compileStep line = .skip := by
  unfold sourceTokens at h
  simp only [compileStep, h]

theorem compileStep_unknown {line t0 : Str} {args : List Str}
    (h : sourceTokens line = t0 :: args)
    (hu : lookupS REVERSE_SCRIPT_COMMANDS t0 = none) :
    compileStep line = .fail ("Unknown command: ".toList ++ t0) := by
  unfold sourceTokens at h
  simp only [compileStep, h, hu]

theorem compileStep_arity_fail {line t0 op : Str} {args ps : List Str}
    (h : sourceTokens line = t0 :: args)
    (hop : lookupS REVERSE_SCRIPT_COMMANDS t0 = some op)
    (hps : lookupS script_command_parameters t0 = some ps)
    (hlen : args.length ≠ ps.length) :
    compileStep line = .fail ("Command ".toList ++ t0 ++ " takes exactly ".toList ++
      natToStr ps.length ++ " arguments: ".toList ++
      List.intercalate ", ".toList ps) := by
  unfold sourceTokens at h
  simp only [compileStep, h, hop, hps]
  rw [if_pos hlen]

theorem compileStep_noargs_fail {line t0 op : Str} {args : List Str}
    (h : sourceTokens line = t0 :: args)
    (hop : lookupS REVERSE_SCRIPT_COMMANDS t0 = some op)
    (hps : lookupS script_command_parameters t0 = none)
    (hne : args ≠ []) :
    compileStep line = .fail ("Command takes no arguments: ".toList ++ t0) := by
  unfold sourceTokens at h
  simp only [compileStep, h, hop, hps]
  rw [if_pos (by simpa using hne)]

theorem compileStep_emit_params {line t0 op : Str} {args ps : List Str}
    (h : sourceTokens line = t0 :: args)
    (hop : lookupS REVERSE_SCRIPT_COMMANDS t0 = some op)
    (hps : lookupS script_command_parameters t0 = some ps)
    (hlen : args.length = ps.length) :
    compileStep line = .emit (op ++ (if 0 < args.length then ['.'] else []) ++
      List.intercalate ['.'] args) := by
  unfold sourceTokens at h
  simp only [compileStep, h, hop, hps]
  rw [if_neg (by simp [hlen])]

theorem compileStep_emit_noparams {line t0 op : Str} {args : List Str}
    (h : sourceTokens line = t0 :: args)
    (hop : lookupS REVERSE_SCRIPT_COMMANDS t0 = some op)
    (hps : lookupS script_command_parameters t0 = none)
    (hargs : args = []) :
    compileStep line = .emit (op ++ (if 0 < args.length then ['.'] else []) ++
      List.intercalate ['.'] args) := by
  unfold sourceTokens at h
  simp only [compileStep, h, hop, hps]
  rw [if_neg (by simp [hargs])]

theorem compileStep_emit_inv {line : Str} {chunk : Str}
    (h : compileStep line = .emit chunk) :
    ∃ t0 args op, sourceTokens line = t0 :: args ∧
      lookupS REVERSE_SCRIPT_COMMANDS t0 = some op ∧
      chunk = op ++ (if 0 < args.length then ['.'] else []) ++
        List.intercalate ['.'] args := by
  cases ht : splitByWhitespace (stripComment line) with
  | nil =>
    simp only [compileStep, ht] at h
    exact absurd h (by simp)
  | cons t0 args =>
    simp only [compileStep, ht] at h
    cases hop : lookupS REVERSE_SCRIPT_COMMANDS t0 with
    | none =>
      simp only [hop] at h
      exact absurd h (by simp)
    | some op =>
      simp only [hop] at h
      refine ⟨t0, args, op, ht, hop, ?_⟩
      cases hps : lookupS script_command_parameters t0 with
      | some ps =>
        simp only [hps] at h
        by_cases hlen : args.length ≠ ps.length
        · rw [if_pos hlen] at h
          exact absurd h (by simp)
        · rw [if_neg hlen] at h
          exact ((LineStep.emit.injEq _ _).mp h).symm
      | none =>
        simp only [hps] at h
        by_cases hlen : args.length ≠ 0
        · rw [if_pos hlen] at h
          exact absurd h (by simp)
        · rw [if_neg hlen] at h
          exact ((LineStep.emit.injEq _ _).mp h).symm

theorem compileStep_skip_inv {line : Str} (h : compileStep line = .skip) :
    sourceTokens line = [] := by
  cases ht : splitByWhitespace (stripComment line) with
  | nil => exact ht
  | cons t0 args =>
    exfalso
    simp only [compileStep, ht] at h
    cases hop : lookupS REVERSE_SCRIPT_COMMANDS t0 with
    | none =>
      simp only [hop] at h
      exact absurd h (by simp)
    | some op =>
      simp only [hop] at h
      cases hps : lookupS script_command_parameters t0 with
      | some ps =>
        simp only [hps] at h
        by_cases hlen : args.length ≠ ps.length
        · rw [if_pos hlen] at h
          exact absurd h (by simp)
        · rw [if_neg hlen] at h
          exact absurd h (by simp)
      | none =>
        simp only [hps] at h
        by_cases hlen : args.length ≠ 0
        · rw [if_pos hlen] at h
          exact absurd h (by simp)
        · rw [if_neg hlen] at h
          exact absurd h (by simp)

theorem compileLoop_acc (index : Nat) (lines : List Str) (out : Str)
    (errs : List Str) :
    compileLoop index lines out errs =
      (out ++ (compileLoop index lines [] []).1,
       errs ++ (compileLoop index lines [] []).2) := by
  induction lines generalizing index out errs with
  | nil => simp [compileLoop]
  | cons line rest ih =>
    cases hs : compileStep line with
    | skip =>
      simp only [compileLoop, hs]
      rw [ih (index + 1) out errs]
    | fail m =>
      simp only [compileLoop, hs]
      rw [ih (index + 1) out (errs ++ [makeError index m]),
          ih (index + 1) [] ([] ++ [makeError index m])]
      simp
    | emit chunk =>
      simp only [compileLoop, hs]
      rw [ih (index + 1) (out ++ (if 0 < index then ['\n'] else []) ++ chunk) errs,
          ih (index + 1) ([] ++ (if 0 < index then ['\n'] else []) ++ chunk) []]
      simp

theorem reverse_then_forward {m op : Str}
    (h : lookupS REVERSE_SCRIPT_COMMANDS m = some op) :
    lookupS SCRIPT_COMMANDS op = some m := by
  have hmem := lookupS_eq_some_mem h
  rw [REVERSE_SCRIPT_COMMANDS] at hmem
  obtain ⟨q, hq, heq⟩ := List.mem_map.mp hmem
  obtain ⟨hq2, hq1⟩ := Prod.mk.injEq _ _ _ _ ▸ heq
  have hqmem : (op, m) ∈ SCRIPT_COMMANDS := by
    rw [← hq1, ← hq2, Prod.mk.eta]
    exact hq
  exact lookupS_of_mem_nodup script_commands_keys_nodup hqmem

theorem opcode_shape {t0 op : Str}
    (h : lookupS REVERSE_SCRIPT_COMMANDS t0 = some op) :
    ∃ c : Char, op = [c] ∧ isPySpace c = false := by
  have hmem := lookupS_eq_some_mem h
  rw [REVERSE_SCRIPT_COMMANDS] at hmem
  obtain ⟨q, hq, heq⟩ := List.mem_map.mp hmem
  obtain ⟨hq2, hq1⟩ := Prod.mk.injEq _ _ _ _ ▸ heq
  have hfacts := List.all_eq_true.mp script_commands_facts q hq
  simp only [Bool.and_eq_true, beq_iff_eq, List.all_eq_true] at hfacts
  obtain ⟨⟨⟨hlen, hsp⟩, _⟩, _⟩ := hfacts
  obtain ⟨c, hc⟩ := List.length_eq_one.mp hlen
  refine ⟨c, by rw [← hq1, hc], ?_⟩
  have := hsp c (by rw [hc]; exact List.mem_singleton.mpr rfl)
  simpa using this

theorem mnemonic_shape {op m : Str} (h : lookupS SCRIPT_COMMANDS op = some m) :
    m ≠ [] ∧ ∀ c ∈ m, isPySpace c = false ∧ c ≠ '.' ∧ c ≠ '/' := by
  have hmem := lookupS_eq_some_mem h
  have hfacts := List.all_eq_true.mp script_commands_facts _ hmem
  simp only [Bool.and_eq_true, beq_iff_eq, List.all_eq_true] at hfacts
  obtain ⟨⟨_, hne⟩, hclean⟩ := hfacts
  constructor
  · simpa using hne
  · intro c hc
    have := hclean c hc
    simp only [Bool.and_eq_true, Bool.not_eq_true', decide_eq_true_eq] at this
    exact ⟨this.1.1, this.1.2, this.2⟩

theorem params_shape {t0 : Str} {ps : List Str}
    (h : lookupS script_command_parameters t0 = some ps) :
    0 < ps.length ∧ (lookupS REVERSE_SCRIPT_COMMANDS t0).isSome ∧
      ∀ name ∈ ps, ∀ c ∈ name, c ≠ '\n' := by
  have hmem := lookupS_eq_some_mem h
  have hfacts := List.all_eq_true.mp params_facts _ hmem
  simp only [Bool.and_eq_true, decide_eq_true_eq, List.all_eq_true] at hfacts
  obtain ⟨⟨hlen, hsome⟩, hnames⟩ := hfacts
  refine ⟨hlen, hsome, ?_⟩
  intro name hn c hc
  have := hnames name hn c hc
  simpa using this

/-- The error message each line contributes, read off `compileStep`. -/
theorem lineError_skip {line : Str} (h : compileStep line = .skip) :
    lineError line = none := by
  simp [lineError, h]

theorem lineError_emit {line : Str} {chunk : Str}
    (h : compileStep line = .emit chunk) : lineError line = none := by
  simp [lineError, h]

theorem lineError_fail {line m : Str} (h : compileStep line = .fail m) :
    lineError line = some m := by
  simp [lineError, h]

theorem compileLoop_errs (index : Nat) (lines : List Str) :
    (compileLoop index lines [] []).2 =
      (lines.enumFrom index).filterMap
        (fun p => (lineError p.2).map (makeError p.1)) := by
  induction lines generalizing index with
  | nil => simp [compileLoop]
  | cons line rest ih =>
    rw [List.enumFrom_cons, List.filterMap_cons]
    cases hs : compileStep line with
    | skip =>
      simp only [compileLoop, hs, lineError_skip hs, Option.map_none']
      exact ih (index + 1)
    | fail m =>
      simp only [compileLoop, hs, lineError_fail hs, Option.map_some']
      rw [compileLoop_acc (index + 1) rest [] ([] ++ [makeError index m])]
      simp only [List.nil_append]
      rw [ih (index + 1)]
      rfl
    | emit chunk =>
      simp only [compileLoop, hs, lineError_emit hs, Option.map_none']
      rw [compileLoop_acc (index + 1) rest
            ([] ++ (if 0 < index then ['\n'] else []) ++ chunk) []]
      simp only [List.nil_append]
      rw [ih (index + 1)]

theorem errList_eq (script : Str) :
    errList script = (compileLoop 0 (splitOnChar '\n' script) [] []).2 := by
  rw [errList, compileLoop_errs]
  rfl

theorem compile_err_char (script : Str) :
    (errList script ≠ [] → compile script = .err (errList script)) ∧
    (errList script = [] → compile script =
      .ok ((compileLoop 0 (splitOnChar '\n' script) [] []).1 ++ ['\n'])) := by
  rw [errList_eq]
  unfold compile
  constructor
  · intro hne
    rw [if_neg (by simpa [List.length_eq_zero] using hne)]
  · intro he
    rw [if_pos (by simp [he])]

theorem compileLoop_out_head (lines : List Str) :
    ∀ (index : Nat) (errs : List Str), 1 ≤ index →
      (compileLoop index lines [] errs).1 = [] ∨
      ((compileLoop index lines [] errs).1).head? = some '\n' := by
  induction lines with
  | nil => intro index errs _; left; rfl
  | cons line rest ih =>
    intro index errs h
    cases hs : compileStep line with
    | skip =>
      simp only [compileLoop, hs]
      exact ih (index + 1) errs (Nat.le_succ_of_le h)
    | fail m =>
      simp only [compileLoop, hs]
      exact ih (index + 1) _ (Nat.le_succ_of_le h)
    | emit chunk =>
      simp only [compileLoop, hs]
      right
      rw [if_pos (show 0 < index by omega)]
      rw [compileLoop_acc (index + 1) rest ([] ++ ['\n'] ++ chunk) errs]
      simp

theorem compile_single_fail {line m : Str} (hnl : '\n' ∉ line)
    (hs : compileStep line = .fail m) :
    compile line = .err [makeError 0 m] := by
  have hsplit : splitOnChar '\n' line = [line] := splitOnChar_eq_single hnl
  simp [compile, hsplit, compileLoop, hs]

/-! ### Claim theorems -/

/-- C1 counterexample: `decompile` is not total.  The packed line consisting
of the single opcode `'` (wizform) is recognized, but the annotation accesses
`arguments[1]` of an empty argument list, raising `IndexError`: the embedded
`decompile` returns `none` (a raised exception) on this input, for the
null resolver. -/
theorem c1_counterexample : decompile nullResolver "\x27".toList = none := by
  decide

/-- C2 counterexample: the round-trip claim fails for the script
`catchWizform`, whose opcode is the `.` character.  It compiles to the packed
text `.`, but decompiling that line splits it on dots into two empty tokens,
recognizes no opcode, and passes the raw line through: no `catchWizform`
mnemonic is reproduced. -/
theorem c2_counterexample :
    compile "catchWizform".toList = .ok ".\n".toList ∧
    decompile nullResolver ".\n".toList = some ".\n\n".toList ∧
    extractCommands ".\n\n".toList ≠
      (splitOnChar '\n' "catchWizform".toList).map sourceTokens := by
  decide

/-- C3 counterexample: the script whose first physical line is blank and
whose only command `idle` sits on the second line compiles to packed text
that BEGINS with a newline character, contradicting the claim that no
newline is emitted before the first emitted line. -/
theorem c3_counterexample :
    compile "\nidle".toList = .ok "\nX\n".toList ∧
    ("\nX\n".toList).head? = some '\n' := by
  decide

/-- C4 counterexample: inside nested `if` blocks, `else` is emitted with NO
indentation while its enclosing `if` sits at indentation 4: they are not at
the same depth.  Packed input `=.1\n=.2\n8\n7\n7` decompiles with the inner
`ifTriggerIsActive 2` at four spaces and the `else` flush left. -/
theorem c4_counterexample :
    decompile nullResolver "=.1\n=.2\n8\n7\n7".toList =
      some "ifTriggerIsActive 1 // id\n    ifTriggerIsActive 2 // id\nelse\n    endIf\nendIf\n".toList ∧
    (splitOnChar '\n' "ifTriggerIsActive 1 // id\n    ifTriggerIsActive 2 // id\nelse\n    endIf\nendIf\n".toList).get? 2
      = some "else".toList ∧
    (splitOnChar '\n' "ifTriggerIsActive 1 // id\n    ifTriggerIsActive 2 // id\nelse\n    endIf\nendIf\n".toList).get? 1
      = some "    ifTriggerIsActive 2 // id".toList := by
  decide

/-- C5 counterexample: tokenization splits on the space character only, not
on all whitespace.  A line whose command and argument are separated by a tab
is one single (unknown) token and fails to compile, while the space-separated
variant compiles. -/
theorem c5_counterexample :
    compile "lockUserInput\t1".toList =
      .err ["Line 1: Unknown command: lockUserInput\t1".toList] ∧
    compile "lockUserInput 1".toList = .ok "<.1\n".toList := by
  decide

/-- C5 (amended): `compile` splits the comment-stripped line on runs of the
space character only, discarding empty tokens: every token is nonempty and
space-free, and every non-space character of the input — including tabs —
is preserved inside some token, so a tab-separated line is tokenized
differently from a space-separated one (e.g. `a\tb c` gives the two tokens
`a\tb` and `c`). -/
theorem c5_amended :
    (∀ s : Str, ∀ t ∈ splitByWhitespace s, t ≠ [] ∧ ' ' ∉ t) ∧
    (∀ (s : Str) (c : Char), c ∈ s → c ≠ ' ' →
      ∃ t ∈ splitByWhitespace s, c ∈ t) ∧
    splitByWhitespace "a\tb c".toList = ["a\tb".toList, "c".toList] := by
  refine ⟨?_, ?_, by decide⟩
  · intro s t ht
    have hmem := List.mem_filter.mp ht
    constructor
    · simpa using hmem.2
    · exact splitOnChar_sep_notMem hmem.1
  · intro s c hc hne
    obtain ⟨t, htmem, htc⟩ := splitOnChar_exists_mem hc hne
    refine ⟨t, List.mem_filter.mpr ⟨htmem, ?_⟩, htc⟩
    simpa using List.ne_nil_of_mem htc

/-- Witness for the amended C5 at a concrete input. -/
theorem c5_amended_witness :
    ("x".toList ≠ [] ∧ ' ' ∉ "x".toList) ∧
    (∃ t ∈ splitByWhitespace "a\tb".toList, '\t' ∈ t) :=
  ⟨c5_amended.1 "x y".toList "x".toList (by decide),
   c5_amended.2.1 "a\tb".toList '\t' (by decide) (by decide)⟩

/-- C3 (amended): during compilation a newline separator is emitted before a
successfully-compiled line's opcode if and only if that line's PHYSICAL index
is positive — not if it is the first line that emits anything.  Hence the
packed output begins with a newline whenever the first physical line is blank
or comment-only (even though that line emits nothing), and begins with the
first command's opcode (never a newline) when the first physical line holds a
command. -/
theorem c3_amended :
    (∀ script p : Str, compile script = .ok p →
        sourceTokens ((splitOnChar '\n' script).headD []) = [] →
        p.head? = some '\n') ∧
    (∀ script p : Str, compile script = .ok p →
        sourceTokens ((splitOnChar '\n' script).headD []) ≠ [] →
        p.head? ≠ some '\n') := by
  constructor
  · intro script p hok hblank
    cases hl : splitOnChar '\n' script with
    | nil => exact absurd hl (splitOnChar_ne_nil '\n' script)
    | cons l0 rest =>
      rw [hl] at hblank
      simp only [List.headD_cons] at hblank
      unfold compile at hok
      rw [hl] at hok
      simp only [compileLoop, compileStep_of_skip hblank] at hok
      by_cases hz : (compileLoop 1 rest [] []).2.length = 0
      · rw [if_pos hz] at hok
        have hp : (compileLoop 1 rest [] []).1 ++ ['\n'] = p :=
          (CompileResult.ok.injEq _ _).mp hok
        rcases compileLoop_out_head rest 1 [] (le_refl 1) with hout | hout
        · rw [hout] at hp
          rw [← hp]
          rfl
        · cases hco : (compileLoop 1 rest [] []).1 with
          | nil => rw [hco] at hout; exact absurd hout (by simp)
          | cons c out' =>
            rw [hco] at hout hp
            simp only [List.head?_cons, Option.some.injEq] at hout
            rw [← hp, hout]
            rfl
      · rw [if_neg hz] at hok
        exact absurd hok (by simp)
  · intro script p hok hne
    cases hl : splitOnChar '\n' script with
    | nil => exact absurd hl (splitOnChar_ne_nil '\n' script)
    | cons l0 rest =>
      rw [hl] at hne
      simp only [List.headD_cons] at hne
      unfold compile at hok
      rw [hl] at hok
      cases hs : compileStep l0 with
      | skip => exact absurd (compileStep_skip_inv hs) hne
      | fail m =>
        simp only [compileLoop, hs] at hok
        rw [compileLoop_acc 1 rest [] ([] ++ [makeError 0 m])] at hok
        rw [if_neg (by simp)] at hok
        exact absurd hok (by simp)
      | emit chunk =>
        obtain ⟨t0, args, op, htk, hop, hchunk⟩ := compileStep_emit_inv hs
        obtain ⟨c, hc, hcsp⟩ := opcode_shape hop
        simp only [compileLoop, hs] at hok
        rw [if_neg (by omega : ¬ 0 < 0)] at hok
        rw [compileLoop_acc 1 rest ([] ++ [] ++ chunk) []] at hok
        by_cases hz : (compileLoop 1 rest [] []).2.length = 0
        · rw [if_pos (by simpa using hz)] at hok
          have hp : ([] ++ [] ++ chunk) ++ (compileLoop 1 rest [] []).1 ++ ['\n'] = p :=
            (CompileResult.ok.injEq _ _).mp hok
          rw [← hp, hchunk, hc]
          intro hcon
          simp only [List.nil_append, List.cons_append, List.head?_cons,
            Option.some.injEq] at hcon
          rw [hcon] at hcsp
          exact absurd hcsp (by decide)
        · rw [if_neg (by simpa using hz)] at hok
          exact absurd hok (by simp)

/-- Witness for the amended C3: a script with a blank first line compiles to
packed text starting with a newline, and one with a command on the first line
does not. -/
theorem c3_amended_witness :
    ("\nX\n".toList).head? = some '\n' ∧
    ¬ ("X\n".toList).head? = some '\n' :=
  ⟨c3_amended.1 "\nidle".toList "\nX\n".toList (by decide) (by decide),
   c3_amended.2 "idle".toList "X\n".toList (by decide) (by decide)⟩

/-- C7: `compile` checks every line and collects all errors as a batch: the
error component of its result is exactly `errList` — one line-numbered
message per erroneous physical line, in line order, with 1-based numbering —
whenever any error exists the result is `.err` with that full list (and no
packed text), and a script with unknown commands on two separate lines
yields exactly those two errors. -/
theorem c7_error_batch :
    (∀ script : Str,
      (errList script ≠ [] → compile script = .err (errList script)) ∧
      (errList script = [] → ∃ packed, compile script = .ok packed) ∧
      (∀ es, compile script = .err es → es = errList script)) ∧
    compile "foo\nbar".toList = .err
      ["Line 1: Unknown command: foo".toList,
       "Line 2: Unknown command: bar".toList] := by
  refine ⟨?_, by decide⟩
  intro script
  obtain ⟨h1, h2⟩ := compile_err_char script
  refine ⟨h1, fun he => ⟨_, h2 he⟩, ?_⟩
  intro es hes
  by_cases hne : errList script = []
  · rw [h2 hne] at hes
    exact absurd hes (by simp)
  · rw [h1 hne] at hes
    exact ((CompileResult.err.injEq _ _).mp hes).symm

/-- Witness for C7 at a concrete erroneous script. -/
theorem c7_error_batch_witness :
    compile "foo\nidle".toList = .err (errList "foo\nidle".toList) :=
  (c7_error_batch.1 "foo\nidle".toList).1 (by decide)

/-- C9: `compile` reports at most one error per physical line: the number of
collected errors never exceeds the number of physical lines; a line whose
first token is an unknown command contributes exactly the unknown-command
error (it is not additionally arity-checked), and a line failing the arity
check contributes exactly that one arity error. -/
theorem c9_one_error_per_line :
    (∀ (script : Str) (es : List Str), compile script = .err es →
        es.length ≤ (splitOnChar '\n' script).length) ∧
    (∀ (line t0 : Str) (args : List Str), '\n' ∉ line →
        sourceTokens line = t0 :: args →
        lookupS REVERSE_SCRIPT_COMMANDS t0 = none →
        compile line = .err [makeError 0 ("Unknown command: ".toList ++ t0)]) ∧
    (∀ (line t0 op : Str) (args ps : List Str), '\n' ∉ line →
        sourceTokens line = t0 :: args →
        lookupS REVERSE_SCRIPT_COMMANDS t0 = some op →
        lookupS script_command_parameters t0 = some ps →
        args.length ≠ ps.length →
        compile line = .err [makeError 0 ("Command ".toList ++ t0 ++
          " takes exactly ".toList ++ natToStr ps.length ++
          " arguments: ".toList ++ List.intercalate ", ".toList ps)]) := by
  refine ⟨?_, ?_, ?_⟩
  · intro script es hes
    obtain ⟨h1, h2⟩ := compile_err_char script
    by_cases hne : errList script = []
    · obtain ⟨packed, hp⟩ : ∃ p, compile script = .ok p := ⟨_, h2 hne⟩
      rw [hp] at hes
      exact absurd hes (by simp)
    · rw [h1 hne] at hes
      have : es = errList script := ((CompileResult.err.injEq _ _).mp hes).symm
      rw [this, errList]
      calc (((splitOnChar '\n' script).enum).filterMap
              (fun p => (lineError p.2).map (makeError p.1))).length
          ≤ ((splitOnChar '\n' script).enum).length :=
            List.length_filterMap_le _ _
        _ = (splitOnChar '\n' script).length := List.enum_length
  · intro line t0 args hnl htk hu
    exact compile_single_fail hnl (compileStep_unknown htk hu)
  · intro line t0 op args ps hnl htk hop hps hlen
    exact compile_single_fail hnl (compileStep_arity_fail htk hop hps hlen)

/-- Witness for C9 at concrete inputs. -/
theorem c9_one_error_per_line_witness :
    compile "zzz".toList =
      .err [makeError 0 ("Unknown command: ".toList ++ "zzz".toList)] :=
  c9_one_error_per_line.2.1 "zzz".toList "zzz".toList [] (by decide)
    (by decide) (by decide)

/-- C6: for a known mnemonic with a registered parameter list of length `n`,
a line tokenizing to that mnemonic with `n-1` or `n+1` argument tokens yields
exactly one error, `Command <m> takes exactly <n> arguments: <comma-joined
names>`; a known zero-arity mnemonic with any nonempty argument list yields
exactly one error `Command takes no arguments: <m>`. -/
theorem c6_arity_error_message :
    (∀ (line t0 : Str) (args ps : List Str), '\n' ∉ line →
        sourceTokens line = t0 :: args →
        lookupS script_command_parameters t0 = some ps →
        (args.length = ps.length - 1 ∨ args.length = ps.length + 1) →
        compile line = .err [makeError 0 ("Command ".toList ++ t0 ++
          " takes exactly ".toList ++ natToStr ps.length ++
          " arguments: ".toList ++ List.intercalate ", ".toList ps)]) ∧
    (∀ (line t0 : Str) (args : List Str), '\n' ∉ line →
        sourceTokens line = t0 :: args →
        (lookupS REVERSE_SCRIPT_COMMANDS t0).isSome →
        lookupS script_command_parameters t0 = none →
        args ≠ [] →
        compile line = .err
          [makeError 0 ("Command takes no arguments: ".toList ++ t0)]) := by
  constructor
  · intro line t0 args ps hnl htk hps hlen
    obtain ⟨hpos, hsome, _⟩ := params_shape hps
    obtain ⟨op, hop⟩ := Option.isSome_iff_exists.mp hsome
    have hne : args.length ≠ ps.length := by omega
    exact compile_single_fail hnl (compileStep_arity_fail htk hop hps hne)
  · intro line t0 args hnl htk hsome hps hargs
    obtain ⟨op, hop⟩ := Option.isSome_iff_exists.mp hsome
    exact compile_single_fail hnl (compileStep_noargs_fail htk hop hps hargs)

/-- Witness for C6: `say` (2 parameters) with a single argument, and the
zero-arity `idle` with one argument. -/
theorem c6_arity_error_message_witness :
    compile "say x".toList = .err [makeError 0 ("Command ".toList ++
      "say".toList ++ " takes exactly ".toList ++ natToStr 2 ++
      " arguments: ".toList ++
      List.intercalate ", ".toList ["dialogUid".toList, "silent".toList])] ∧
    compile "idle x".toList = .err
      [makeError 0 ("Command takes no arguments: ".toList ++ "idle".toList)] :=
  ⟨c6_arity_error_message.1 "say x".toList "say".toList ["x".toList]
      ["dialogUid".toList, "silent".toList] (by decide) (by decide) (by decide)
      (Or.inl (by decide)),
   c6_arity_error_message.2 "idle x".toList "idle".toList ["x".toList]
      (by decide) (by decide) (by decide) (by decide) (by decide)⟩

/-- C8: annotation of an argument used as an index into a static enumeration
table is bounds-checked: a non-numeric, negative, or too-large index degrades
to the fixed marker `NULL` instead of failing; in particular an
`ifPlayerHasSpecials` element-class index of 99 and a `playAnimation`
animation index of 99 both annotate with the marker. -/
theorem c8_enum_index_bounds :
    (∀ (string_list : List Str) (arg : Str),
        (parsePyInt arg = none ∨
         ∃ n : Int, parsePyInt arg = some n ∧
           (n < 0 ∨ (string_list.length : Int) ≤ n)) →
        indexListByMaybeInt string_list arg = "NULL".toList) ∧
    makeDecompiledParameterComment "ifPlayerHasSpecials".toList
        ["3".toList, "99".toList] nullResolver =
      some " // condition, argument; Player can show NULL Fairy".toList ∧
    makeDecompiledParameterComment "playAnimation".toList
        ["99".toList, "0".toList] nullResolver =
      some " // animationType, UNUSED; Animation: NULL".toList := by
  refine ⟨?_, by decide, by decide⟩
  intro l arg h
  rcases h with hnone | ⟨n, hsome, hbad⟩
  · simp [indexListByMaybeInt, hnone]
  · simp only [indexListByMaybeInt, hsome]
    rw [if_neg ?hcond]
    case hcond =>
      simp only [Bool.and_eq_true, decide_eq_true_eq]
      rintro ⟨h1, h2⟩
      rcases hbad with h3 | h3 <;> omega

/-- Witness for C8: element-class index 99 resolves to the marker. -/
theorem c8_enum_index_bounds_witness :
    indexListByMaybeInt ELEMENT_CLASSES "99".toList = "NULL".toList :=
  c8_enum_index_bounds.1 ELEMENT_CLASSES "99".toList
    (Or.inr ⟨99, by decide, Or.inr (by decide)⟩)

/-! ### Decompiler-side helper lemmas -/

theorem intercalate_single (sep p : Str) : List.intercalate sep [p] = p := by
  simp [List.intercalate]

theorem intercalate_cons₂ (sep p q : Str) (rest : List Str) :
    List.intercalate sep (p :: q :: rest) =
      p ++ sep ++ List.intercalate sep (q :: rest) := by
  simp [List.intercalate, List.intersperse_cons_cons, List.append_assoc]

theorem mem_intercalate_elim {c : Char} {sep : Str} {parts : List Str}
    (h : c ∈ List.intercalate sep parts) : c ∈ sep ∨ ∃ p ∈ parts, c ∈ p := by
  induction parts with
  | nil => simp [List.intercalate] at h
  | cons p rest ih =>
    cases rest with
    | nil =>
      rw [intercalate_single] at h
      exact Or.inr ⟨p, by simp, h⟩
    | cons q rest' =>
      rw [intercalate_cons₂] at h
      rcases List.mem_append.mp h with h1 | h2
      · rcases List.mem_append.mp h1 with hp | hsep
        · exact Or.inr ⟨p, by simp, hp⟩
        · exact Or.inl hsep
      · rcases ih h2 with hs | ⟨t, ht, hc⟩
        · exact Or.inl hs
        · exact Or.inr ⟨t, List.mem_cons_of_mem p ht, hc⟩

theorem get?_isSome_of_lt {α : Type} {l : List α} {i : Nat} (h : i < l.length) :
    (l.get? i).isSome := by
  cases hg : l.get? i with
  | none => rw [List.get?_eq_none] at hg; omega
  | some a => rfl

theorem specials_isSome {args : List Str} (h : 2 ≤ args.length) :
    (makeDecompiledSpecialsComment args).isSome := by
  obtain ⟨a0, ha0⟩ := Option.isSome_iff_exists.mp
    (get?_isSome_of_lt (show 0 < args.length by omega))
  obtain ⟨a1, ha1⟩ := Option.isSome_iff_exists.mp
    (get?_isSome_of_lt (show 1 < args.length by omega))
  simp only [makeDecompiledSpecialsComment, ha0]
  split_ifs with h1 h2 h3
  · rw [ha1]; rfl
  · rfl
  · rw [ha1]; rfl
  · rfl

theorem comment_isSome {command : Str} {ps args : List Str} (r : Resolver)
    (hps : lookupS script_command_parameters command = some ps)
    (hlen : ps.length ≤ args.length) :
    (makeDecompiledParameterComment command args r).isSome := by
  have h0 : 0 < args.length := Nat.lt_of_lt_of_le (params_shape hps).1 hlen
  obtain ⟨a0, ha0⟩ := Option.isSome_iff_exists.mp (get?_isSome_of_lt h0)
  simp only [makeDecompiledParameterComment, hps]
  by_cases h1 : command = "wizform".toList
  · rw [if_pos h1]
    rw [h1] at hps
    rw [show lookupS script_command_parameters "wizform".toList =
        some ["deckSlot".toList, "fairyId".toList, "level".toList] from by
          decide] at hps
    obtain rfl := (Option.some.injEq _ _).mp hps
    simp only [List.length_cons, List.length_nil] at hlen
    obtain ⟨a1, ha1⟩ := Option.isSome_iff_exists.mp
      (get?_isSome_of_lt (show 1 < args.length by omega))
    rw [ha1]; rfl
  rw [if_neg h1]
  by_cases h2 : (decide (command = "defaultWizForm".toList) ||
      decide (command = "ifIsWizform".toList)) = true
  · rw [if_pos h2, ha0]; rfl
  rw [if_neg h2]
  by_cases h3 : (decide (command = "say".toList) ||
      decide (command = "talk".toList)) = true
  · rw [if_pos h3, ha0]; rfl
  rw [if_neg h3]
  by_cases h4 : command = "choice".toList
  · rw [if_pos h4]
    rw [h4] at hps
    rw [show lookupS script_command_parameters "choice".toList =
        some ["ladelId".toList, "uid".toList] from by decide] at hps
    obtain rfl := (Option.some.injEq _ _).mp hps
    simp only [List.length_cons, List.length_nil] at hlen
    obtain ⟨a1, ha1⟩ := Option.isSome_iff_exists.mp
      (get?_isSome_of_lt (show 1 < args.length by omega))
    rw [ha1]; rfl
  rw [if_neg h4]
  by_cases h5 : (decide (command = "givePlayerCards".toList) ||
      decide (command = "setupGambling".toList) ||
      decide (command = "ifPlayerHasCards".toList) ||
      decide (command = "removePlayerCards".toList)) = true
  · rw [if_pos h5]
    have hlen3 : 3 ≤ args.length := by
      simp only [Bool.or_eq_true, decide_eq_true_eq] at h5
      rcases h5 with ((h | h) | h) | h <;> rw [h] at hps
      · rw [show lookupS script_command_parameters "givePlayerCards".toList =
            some ["amount".toList, "cardType".toList, "id".toList] from by
              decide] at hps
        obtain rfl := (Option.some.injEq _ _).mp hps
        simp only [List.length_cons, List.length_nil] at hlen
        omega
      · rw [show lookupS script_command_parameters "setupGambling".toList =
            some ["amount".toList, "cardType".toList, "id".toList] from by
              decide] at hps
        obtain rfl := (Option.some.injEq _ _).mp hps
        simp only [List.length_cons, List.length_nil] at hlen
        omega
      · rw [show lookupS script_command_parameters "ifPlayerHasCards".toList =
            some ["amount".toList, "cardType".toList, "id".toList] from by
              decide] at hps
        obtain rfl := (Option.some.injEq _ _).mp hps
        simp only [List.length_cons, List.length_nil] at hlen
        omega
      · rw [show lookupS script_command_parameters "removePlayerCards".toList =
            some ["amount".toList, "cardType".toList, "id".toList] from by
              decide] at hps
        obtain rfl := (Option.some.injEq _ _).mp hps
        simp only [List.length_cons, List.length_nil] at hlen
        omega
    obtain ⟨a1, ha1⟩ := Option.isSome_iff_exists.mp
      (get?_isSome_of_lt (show 1 < args.length by omega))
    obtain ⟨a2, ha2⟩ := Option.isSome_iff_exists.mp
      (get?_isSome_of_lt (show 2 < args.length by omega))
    rw [ha1, ha2]; rfl
  rw [if_neg h5]
  by_cases h6 : command = "modifyWizform".toList
  · rw [if_pos h6]
    rw [h6] at hps
    rw [show lookupS script_command_parameters "modifyWizform".toList =
        some ["subcommand".toList, "argument".toList] from by decide] at hps
    obtain rfl := (Option.some.injEq _ _).mp hps
    simp only [List.length_cons, List.length_nil] at hlen
    rw [ha0]
    simp only []
    by_cases ha : a0 = "7".toList
    · rw [if_pos ha]
      obtain ⟨a1, ha1⟩ := Option.isSome_iff_exists.mp
        (get?_isSome_of_lt (show 1 < args.length by omega))
      rw [ha1]; rfl
    · rw [if_neg ha]
      cases hl : lookupS subcommand_descriptions a0 <;> rfl
  rw [if_neg h6]
  by_cases h7 : command = "ifPlayerHasSpecials".toList
  · rw [if_pos h7]
    rw [h7] at hps
    rw [show lookupS script_command_parameters "ifPlayerHasSpecials".toList =
        some ["condition".toList, "argument".toList] from by decide] at hps
    obtain rfl := (Option.some.injEq _ _).mp hps
    simp only [List.length_cons, List.length_nil] at hlen
    obtain ⟨c, hc⟩ := Option.isSome_iff_exists.mp
      (specials_isSome (show 2 ≤ args.length by omega))
    rw [hc]; rfl
  rw [if_neg h7]
  by_cases h8 : command = "lookAtPlayer".toList
  · rw [if_pos h8]
    rw [h8] at hps
    rw [show lookupS script_command_parameters "lookAtPlayer".toList =
        some ["seconds/10".toList, "mode".toList] from by decide] at hps
    obtain rfl := (Option.some.injEq _ _).mp hps
    simp only [List.length_cons, List.length_nil] at hlen
    obtain ⟨a1, ha1⟩ := Option.isSome_iff_exists.mp
      (get?_isSome_of_lt (show 1 < args.length by omega))
    rw [ha1]
    simp only []
    cases hl : lookupS lookAtModes a1 <;> rfl
  rw [if_neg h8]
  by_cases h9 : (decide (command = "playAnimation".toList) ||
      decide (command = "playPlayerAnimation".toList)) = true
  · rw [if_pos h9, ha0]; rfl
  rw [if_neg h9]
  by_cases h10 : command = "startActorEffect".toList
  · rw [if_pos h10, ha0]; rfl
  rw [if_neg h10]
  rfl

theorem decompileLine_isSome (r : Resolver) (ind : Nat) {line : Str}
    (h : arityOkLine line = true) : (decompileLine r ind line).isSome := by
  cases ht : splitOnChar '.' (pyStrip line) with
  | nil => simp only [decompileLine, ht]; rfl
  | cons t0 rest =>
    simp only [arityOkLine, ht] at h
    simp only [decompileLine, ht]
    cases hcmd : lookupS SCRIPT_COMMANDS t0 with
    | none => rfl
    | some command =>
      simp only [hcmd] at h ⊢
      cases hps : lookupS script_command_parameters command with
      | none => rfl
      | some ps =>
        simp only [hps, decide_eq_true_eq] at h
        obtain ⟨c, hc⟩ := Option.isSome_iff_exists.mp (comment_isSome r hps h)
        rw [hc]
        rfl

theorem decompileLoop_isSome (r : Resolver) (lines : List Str) :
    ∀ (ind : Nat) (acc : Str), (∀ l ∈ lines, arityOkLine l = true) →
      (decompileLoop r ind lines acc).isSome := by
  induction lines with
  | nil => intro ind acc _; rfl
  | cons line rest ih =>
    intro ind acc h
    obtain ⟨p, hp⟩ := Option.isSome_iff_exists.mp
      (decompileLine_isSome r ind (h line (List.mem_cons_self line rest)))
    obtain ⟨chunk, ind'⟩ := p
    simp only [decompileLoop, hp]
    exact ih ind' (acc ++ chunk) (fun l hl => h l (List.mem_cons_of_mem line hl))

/-- C1 (amended): `decompile` returns a result (never raises) for every
input in which each line whose first dot-token is a known opcode of a
command with a registered parameter list carries at least that command's
registered parameter count of arguments; on inputs violating this (a
recognized opcode with too few arguments, e.g. the bare wizform opcode) the
annotation can raise `IndexError`. -/
theorem c1_amended (r : Resolver) (script : Str)
    (h : ∀ line ∈ splitOnChar '\n' script, arityOkLine line = true) :
    (decompile r script).isSome := by
  unfold decompile
  exact decompileLoop_isSome r (splitOnChar '\n' script) 0 [] h

/-- Witness for the amended C1: a packed script mixing a full-arity wizform
line, a zero-argument command and an unrecognized line decompiles
successfully. -/
theorem c1_amended_witness :
    (decompile nullResolver "\x27.1.2.3\nX\ngarbage".toList).isSome :=
  c1_amended nullResolver "\x27.1.2.3\nX\ngarbage".toList (by decide)

theorem startsWith_append_self (pat x : Str) :
    startsWith (pat ++ x) pat = true := by
  induction pat with
  | nil => rw [List.nil_append]; cases x <;> rfl
  | cons c cs ih => simp [startsWith, ih]

/-- C4 (amended): a packed line whose first dot-token is the opcode `8`
(mnemonic `else`) is always emitted with no leading indentation at all — the
emitted chunk begins directly with the text `else`, whatever the current
indentation state — and leaves the indentation state unchanged.  It
therefore matches its enclosing `if`'s indentation only when that `if` is
itself unindented. -/
theorem c4_amended (r : Resolver) (ind : Nat) (line : Str) (rest : List Str)
    (h : splitOnChar '.' (pyStrip line) = "8".toList :: rest) :
    ∃ chunk ind', decompileLine r ind line = some (chunk, ind') ∧
      startsWith chunk "else".toList = true ∧ ind' = ind := by
  simp only [decompileLine, h,
    show lookupS SCRIPT_COMMANDS "8".toList = some "else".toList from by decide]
  rw [if_neg (show ¬("else".toList = "endIf".toList) from by decide)]
  rw [if_neg (show ¬("else".toList ≠ "else".toList) from by decide)]
  rw [if_neg (show ¬(startsWith "else".toList "if".toList = true) from by decide)]
  simp only [show lookupS script_command_parameters "else".toList =
    (none : Option (List Str)) from by decide]
  refine ⟨_, _, rfl, ?_, rfl⟩
  simp only [List.nil_append, List.append_assoc]
  exact startsWith_append_self _ _

/-- Witness for the amended C4: at indentation state 8, the bare else opcode
still emits flush left. -/
theorem c4_amended_witness :
    ∃ chunk ind', decompileLine nullResolver 8 "8".toList = some (chunk, ind') ∧
      startsWith chunk "else".toList = true ∧ ind' = 8 :=
  c4_amended nullResolver 8 "8".toList [] (by decide)

theorem nf_append {c : Char} {s t : Str} (h1 : c ∉ s) (h2 : c ∉ t) :
    c ∉ s ++ t := by
  intro hm
  rcases List.mem_append.mp hm with h | h
  · exact h1 h
  · exact h2 h

theorem base_comment_nf {ps : List Str}
    (h : ∀ name ∈ ps, ∀ c ∈ name, c ≠ '\n') :
    '\n' ∉ " // ".toList ++ List.intercalate ", ".toList ps := by
  apply nf_append (by decide)
  intro hm
  rcases mem_intercalate_elim hm with hs | ⟨p, hp, hc⟩
  · revert hs; decide
  · exact h p hp '\n' hc rfl

theorem indexList_nf {l : List Str} (arg : Str)
    (h : ∀ p ∈ l, '\n' ∉ p) : '\n' ∉ indexListByMaybeInt l arg := by
  unfold indexListByMaybeInt
  cases parsePyInt arg with
  | none => exact (show '\n' ∉ "NULL".toList by decide)
  | some n =>
    simp only []
    split_ifs with hb
    · rw [List.getD_eq_getD_get?]
      cases hg : l.get? n.toNat with
      | none => simp
      | some p => simpa using h p (List.get?_mem hg)
    · exact (show '\n' ∉ "NULL".toList by decide)

theorem actorEffect_nf (a : Str) : '\n' ∉ makeActorEffectComment a := by
  unfold makeActorEffectComment
  split_ifs <;> decide

theorem cardDesc_nf {r : Resolver} (hr : resolverNF r) (t i : Str) :
    '\n' ∉ resolveCardDescription r t i := by
  unfold resolveCardDescription
  split_ifs
  · exact nf_append (by decide) (hr i).2.1
  · exact nf_append (by decide) (hr i).2.2.1
  · exact nf_append (by decide) (hr i).1
  · decide
  · decide

theorem specials_nf {args : List Str} {c : Str}
    (hc : makeDecompiledSpecialsComment args = some c) : '\n' ∉ c := by
  unfold makeDecompiledSpecialsComment at hc
  cases ha0 : args.get? 0 with
  | none => rw [ha0] at hc; exact absurd hc (by simp)
  | some a0 =>
    rw [ha0] at hc
    simp only [] at hc
    split_ifs at hc with h1 h2 h3
    · cases ha1 : args.get? 1 with
      | none => rw [ha1] at hc; exact absurd hc (by simp)
      | some a1 =>
        rw [ha1] at hc
        obtain rfl := (Option.some.injEq _ _).mp hc
        apply nf_append (nf_append (by decide) ?_) (by decide)
        split_ifs <;> decide
    · obtain rfl := (Option.some.injEq _ _).mp hc
      decide
    · cases ha1 : args.get? 1 with
      | none => rw [ha1] at hc; exact absurd hc (by simp)
      | some a1 =>
        rw [ha1] at hc
        obtain rfl := (Option.some.injEq _ _).mp hc
        exact nf_append (nf_append (by decide)
          (indexList_nf a1 (by decide))) (by decide)
    · obtain rfl := (Option.some.injEq _ _).mp hc
      decide

theorem subcommand_values_nf {a d : Str}
    (h : lookupS subcommand_descriptions a = some d) : '\n' ∉ d := by
  have hmem := lookupS_eq_some_mem h
  have hall : subcommand_descriptions.all
      (fun p => p.2.all (fun c => c ≠ '\n')) = true := by decide
  have := List.all_eq_true.mp hall _ hmem
  simp only [List.all_eq_true, decide_eq_true_eq] at this
  intro hm
  exact this '\n' hm rfl

theorem lookAtModes_values_nf {a d : Str}
    (h : lookupS lookAtModes a = some d) : '\n' ∉ d := by
  have hmem := lookupS_eq_some_mem h
  have hall : lookAtModes.all
      (fun p => p.2.all (fun c => c ≠ '\n')) = true := by decide
  have := List.all_eq_true.mp hall _ hmem
  simp only [List.all_eq_true, decide_eq_true_eq] at this
  intro hm
  exact this '\n' hm rfl

theorem comment_nf {command : Str} {args : List Str} {r : Resolver} {c : Str}
    (hr : resolverNF r)
    (hc : makeDecompiledParameterComment command args r = some c) :
    '\n' ∉ c := by
  unfold makeDecompiledParameterComment at hc
  cases hps : lookupS script_command_parameters command with
  | none => rw [hps] at hc; exact absurd hc (by simp)
  | some ps =>
    rw [hps] at hc
    simp only [] at hc
    have hbase := base_comment_nf (params_shape hps).2.2
    by_cases h1 : command = "wizform".toList
    · rw [if_pos h1] at hc
      cases ha1 : args.get? 1 with
      | none => rw [ha1] at hc; exact absurd hc (by simp)
      | some a1 =>
        rw [ha1] at hc
        obtain rfl := (Option.some.injEq _ _).mp hc
        exact nf_append (nf_append hbase (by decide)) (hr a1).1
    rw [if_neg h1] at hc
    by_cases h2 : (decide (command = "defaultWizForm".toList) ||
        decide (command = "ifIsWizform".toList)) = true
    · rw [if_pos h2] at hc
      cases ha0 : args.get? 0 with
      | none => rw [ha0] at hc; exact absurd hc (by simp)
      | some a0 =>
        rw [ha0] at hc
        obtain rfl := (Option.some.injEq _ _).mp hc
        exact nf_append (nf_append hbase (by decide)) (hr a0).1
    rw [if_neg h2] at hc
    by_cases h3 : (decide (command = "say".toList) ||
        decide (command = "talk".toList)) = true
    · rw [if_pos h3] at hc
      cases ha0 : args.get? 0 with
      | none => rw [ha0] at hc; exact absurd hc (by simp)
      | some a0 =>
        rw [ha0] at hc
        obtain rfl := (Option.some.injEq _ _).mp hc
        exact nf_append (nf_append hbase (by decide)) (hr a0).2.2.2
    rw [if_neg h3] at hc
    by_cases h4 : command = "choice".toList
    · rw [if_pos h4] at hc
      cases ha1 : args.get? 1 with
      | none => rw [ha1] at hc; exact absurd hc (by simp)
      | some a1 =>
        rw [ha1] at hc
        obtain rfl := (Option.some.injEq _ _).mp hc
        exact nf_append (nf_append hbase (by decide)) (hr a1).2.2.2
    rw [if_neg h4] at hc
    by_cases h5 : (decide (command = "givePlayerCards".toList) ||
        decide (command = "setupGambling".toList) ||
        decide (command = "ifPlayerHasCards".toList) ||
        decide (command = "removePlayerCards".toList)) = true
    · rw [if_pos h5] at hc
      cases ha1 : args.get? 1 with
      | none => rw [ha1] at hc; exact absurd hc (by simp)
      | some a1 =>
        cases ha2 : args.get? 2 with
        | none => rw [ha1, ha2] at hc; exact absurd hc (by simp)
        | some a2 =>
          rw [ha1, ha2] at hc
          obtain rfl := (Option.some.injEq _ _).mp hc
          exact nf_append (nf_append hbase (by decide)) (cardDesc_nf hr a1 a2)
    rw [if_neg h5] at hc
    by_cases h6 : command = "modifyWizform".toList
    · rw [if_pos h6] at hc
      cases ha0 : args.get? 0 with
      | none => rw [ha0] at hc; exact absurd hc (by simp)
      | some a0 =>
        rw [ha0] at hc
        simp only [] at hc
        by_cases ha : a0 = "7".toList
        · rw [if_pos ha] at hc
          cases ha1 : args.get? 1 with
          | none => rw [ha1] at hc; exact absurd hc (by simp)
          | some a1 =>
            rw [ha1] at hc
            obtain rfl := (Option.some.injEq _ _).mp hc
            exact nf_append (nf_append hbase (by decide)) (hr a1).1
        · rw [if_neg ha] at hc
          cases hl : lookupS subcommand_descriptions a0 with
          | none =>
            rw [hl] at hc
            obtain rfl := (Option.some.injEq _ _).mp hc
            exact hbase
          | some d =>
            rw [hl] at hc
            obtain rfl := (Option.some.injEq _ _).mp hc
            exact nf_append (nf_append hbase (by decide))
              (subcommand_values_nf hl)
    rw [if_neg h6] at hc
    by_cases h7 : command = "ifPlayerHasSpecials".toList
    · rw [if_pos h7] at hc
      cases hsp : makeDecompiledSpecialsComment args with
      | none => rw [hsp] at hc; exact absurd hc (by simp)
      | some sc =>
        rw [hsp] at hc
        obtain rfl := (Option.some.injEq _ _).mp hc
        exact nf_append hbase (specials_nf hsp)
    rw [if_neg h7] at hc
    by_cases h8 : command = "lookAtPlayer".toList
    · rw [if_pos h8] at hc
      cases ha1 : args.get? 1 with
      | none => rw [ha1] at hc; exact absurd hc (by simp)
      | some a1 =>
        rw [ha1] at hc
        simp only [] at hc
        cases hl : lookupS lookAtModes a1 with
        | none =>
          rw [hl] at hc
          obtain rfl := (Option.some.injEq _ _).mp hc
          exact hbase
        | some m =>
          rw [hl] at hc
          obtain rfl := (Option.some.injEq _ _).mp hc
          exact nf_append (nf_append hbase (by decide))
            (lookAtModes_values_nf hl)
    rw [if_neg h8] at hc
    by_cases h9 : (decide (command = "playAnimation".toList) ||
        decide (command = "playPlayerAnimation".toList)) = true
    · rw [if_pos h9] at hc
      cases ha0 : args.get? 0 with
      | none => rw [ha0] at hc; exact absurd hc (by simp)
      | some a0 =>
        rw [ha0] at hc
        obtain rfl := (Option.some.injEq _ _).mp hc
        exact nf_append (nf_append hbase (by decide))
          (indexList_nf a0 (by decide))
    rw [if_neg h9] at hc
    by_cases h10 : command = "startActorEffect".toList
    · rw [if_pos h10] at hc
      cases ha0 : args.get? 0 with
      | none => rw [ha0] at hc; exact absurd hc (by simp)
      | some a0 =>
        rw [ha0] at hc
        obtain rfl := (Option.some.injEq _ _).mp hc
        exact nf_append hbase (actorEffect_nf a0)
    rw [if_neg h10] at hc
    obtain rfl := (Option.some.injEq _ _).mp hc
    exact hbase

theorem decompileLine_nl {r : Resolver} {ind : Nat} {line chunk : Str}
    {ind' : Nat} (hr : resolverNF r) (hline : '\n' ∉ line)
    (h : decompileLine r ind line = some (chunk, ind')) :
    ∃ body, chunk = body ++ ['\n'] ∧ '\n' ∉ body := by
  cases ht : splitOnChar '.' (pyStrip line) with
  | nil =>
    simp only [decompileLine, ht] at h
    rw [Option.some.injEq, Prod.mk.injEq] at h
    exact ⟨line, h.1.symm, hline⟩
  | cons t0 rest =>
    simp only [decompileLine, ht] at h
    have hrest_nf : ∀ t ∈ rest, '\n' ∉ t := by
      intro t htm hmem
      have h1 : t ∈ splitOnChar '.' (pyStrip line) := by
        rw [ht]
        exact List.mem_cons_of_mem t0 htm
      exact hline (mem_of_mem_pyStrip (splitOnChar_mem_mem h1 hmem))
    cases hcmd : lookupS SCRIPT_COMMANDS t0 with
    | none =>
      rw [hcmd] at h
      rw [Option.some.injEq, Prod.mk.injEq] at h
      exact ⟨line, h.1.symm, hline⟩
    | some command =>
      rw [hcmd] at h
      simp only [] at h
      have hcmd_nf : '\n' ∉ command := by
        intro hm
        exact absurd ((mnemonic_shape hcmd).2 '\n' hm).1 (by decide)
      have hite1 : ∀ n : Nat,
          '\n' ∉ (if command ≠ "else".toList then
            (List.replicate n ' ' : Str) else []) := by
        intro n
        split_ifs
        · intro hm
          exact absurd (List.eq_of_mem_replicate hm) (by decide)
        · simp
      have hite2 : '\n' ∉ (if 0 < rest.length then
          ' ' :: List.intercalate [' '] rest else []) := by
        split_ifs
        · intro hm
          rcases List.mem_cons.mp hm with he | hm2
          · exact absurd he (by decide)
          · rcases mem_intercalate_elim hm2 with hs | ⟨p, hp, hcp⟩
            · revert hs; decide
            · exact hrest_nf p hp hcp
        · simp
      cases hps : lookupS script_command_parameters command with
      | none =>
        rw [hps] at h
        rw [Option.some.injEq, Prod.mk.injEq] at h
        refine ⟨_, h.1.symm, ?_⟩
        exact nf_append (nf_append (hite1 _) hcmd_nf) hite2
      | some ps =>
        rw [hps] at h
        simp only [] at h
        cases hcm : makeDecompiledParameterComment command rest r with
        | none => rw [hcm] at h; exact absurd h (by simp)
        | some cm =>
          rw [hcm] at h
          rw [Option.some.injEq, Prod.mk.injEq] at h
          refine ⟨_, h.1.symm, ?_⟩
          exact nf_append (nf_append (nf_append (hite1 _) hcmd_nf) hite2)
            (comment_nf hr hcm)

theorem decompileLoop_count {r : Resolver} (lines : List Str) :
    ∀ (ind : Nat) (acc out : Str),
      decompileLoop r ind lines acc = some out →
      (∀ l ∈ lines, '\n' ∉ l) → resolverNF r →
      out.count '\n' = acc.count '\n' + lines.length := by
  induction lines with
  | nil =>
    intro ind acc out h _ _
    simp only [decompileLoop, Option.some.injEq] at h
    rw [← h, List.length_nil, Nat.add_zero]
  | cons line rest ih =>
    intro ind acc out h hnl hr
    cases hd : decompileLine r ind line with
    | none => rw [decompileLoop, hd] at h; exact absurd h (by simp)
    | some p =>
      obtain ⟨chunk, ind2⟩ := p
      rw [decompileLoop, hd] at h
      have hrec := ih ind2 (acc ++ chunk) out h
        (fun l hl => hnl l (List.mem_cons_of_mem line hl)) hr
      obtain ⟨body, rfl, hbody⟩ :=
        decompileLine_nl hr (hnl line (List.mem_cons_self line rest)) hd
      rw [hrec, List.count_append, List.count_append,
          List.count_eq_zero.mpr hbody]
      simp [List.length_cons]
      omega

/-- C10: `decompile` emits exactly one newline-terminated output line per
input line: whenever it returns a result and the resolver produces only
newline-free strings, the number of newline characters in the output is the
number of newline characters in the input plus one. -/
theorem c10_newline_per_line (r : Resolver) (s out : Str)
    (hr : resolverNF r) (h : decompile r s = some out) :
    out.count '\n' = s.count '\n' + 1 := by
  unfold decompile at h
  have hlines : ∀ l ∈ splitOnChar '\n' s, '\n' ∉ l :=
    fun l hl => splitOnChar_sep_notMem hl
  have := decompileLoop_count (splitOnChar '\n' s) 0 [] out h hlines hr
  rw [this, splitOnChar_length]
  simp

/-- The null resolver only returns the newline-free marker string. -/
theorem nullResolver_nf : resolverNF nullResolver := by
  intro s
  refine ⟨?_, ?_, ?_, ?_⟩ <;> exact (show '\n' ∉ "NULL".toList by decide)

/-- Witness for C10: decompiling the one-line packed script `X` yields
`idle` plus a newline — one more newline than the input. -/
theorem c10_newline_per_line_witness :
    ("idle\n".toList).count '\n' = ("X".toList).count '\n' + 1 :=
  c10_newline_per_line nullResolver "X".toList "idle\n".toList
    nullResolver_nf (by decide)

/-! ### Round-trip machinery -/

theorem splitOnChar_first {sep : Char} {b : Str} (h : sep ∉ b) (t : Str) :
    splitOnChar sep (b ++ sep :: t) = b :: splitOnChar sep t := by
  have hb : ∀ x ∈ b, ¬((fun c => c == sep) x = true) := by
    intro x hx
    simp only [beq_iff_eq]
    intro he
    exact h (he ▸ hx)
  show (b ++ sep :: t).splitOnP (fun c => c == sep) =
    b :: t.splitOnP (fun c => c == sep)
  exact List.splitOnP_first (fun c => c == sep) b hb sep (by simp) t

theorem cleanToken_spec {a : Str} (h : cleanToken a = true) :
    a ≠ [] ∧ ∀ c ∈ a, isPySpace c = false ∧ c ≠ '.' ∧ c ≠ '/' := by
  unfold cleanToken at h
  simp only [Bool.and_eq_true, List.all_eq_true, Bool.not_eq_true',
    decide_eq_true_eq] at h
  constructor
  · simpa using h.1
  · intro c hc
    have := h.2 c hc
    simp only [Bool.and_eq_true, Bool.not_eq_true', decide_eq_true_eq] at this
    exact ⟨this.1.1, this.1.2, this.2⟩

theorem goodLine_inv {line : Str} (h : goodLine line = true) :
    ∃ t0 args op, sourceTokens line = t0 :: args ∧
      lookupS REVERSE_SCRIPT_COMMANDS t0 = some op ∧ op ≠ ".".toList ∧
      (∀ a ∈ args, cleanToken a = true) ∧
      ((∃ ps, lookupS script_command_parameters t0 = some ps ∧
          args.length = ps.length) ∨
       (lookupS script_command_parameters t0 = none ∧ args = [])) := by
  unfold goodLine at h
  cases htk : sourceTokens line with
  | nil => rw [htk] at h; exact absurd h (by simp)
  | cons t0 args =>
    rw [htk] at h
    simp only [] at h
    cases hop : lookupS REVERSE_SCRIPT_COMMANDS t0 with
    | none => rw [hop] at h; exact absurd h (by simp)
    | some op =>
      rw [hop] at h
      simp only [Bool.and_eq_true, decide_eq_true_eq, List.all_eq_true] at h
      refine ⟨t0, args, op, rfl, hop, h.1.1, h.2, ?_⟩
      cases hps : lookupS script_command_parameters t0 with
      | none =>
        rw [hps] at h
        right
        refine ⟨rfl, ?_⟩
        simpa using h.1.2
      | some ps =>
        rw [hps] at h
        left
        refine ⟨ps, rfl, ?_⟩
        simpa using h.1.2

theorem compileStep_good {line : Str} (h : goodLine line = true) :
    compileStep line = .emit (packChunk line) := by
  obtain ⟨t0, args, op, htk, hop, _, _, harity⟩ := goodLine_inv h
  have hpk : packChunk line = op ++ (if 0 < args.length then ['.'] else []) ++
      List.intercalate ['.'] args := by
    simp only [packChunk, htk, hop]
  rw [hpk]
  rcases harity with ⟨ps, hps, hlen⟩ | ⟨hps, hargs⟩
  · exact compileStep_emit_params htk hop hps hlen
  · exact compileStep_emit_noparams htk hop hps hargs

theorem packChunk_as_intercalate {line t0 op : Str} {args : List Str}
    (htk : sourceTokens line = t0 :: args)
    (hop : lookupS REVERSE_SCRIPT_COMMANDS t0 = some op) :
    packChunk line = List.intercalate ['.'] (op :: args) := by
  simp only [packChunk, htk, hop]
  cases args with
  | nil => rw [intercalate_single]; simp [List.intercalate]
  | cons a args' =>
    rw [intercalate_cons₂]
    simp [List.append_assoc]

theorem packChunk_chars {line t0 op : Str} {args : List Str}
    (htk : sourceTokens line = t0 :: args)
    (hop : lookupS REVERSE_SCRIPT_COMMANDS t0 = some op)
    (hclean : ∀ a ∈ args, cleanToken a = true) :
    ∀ c ∈ packChunk line, isPySpace c = false := by
  rw [packChunk_as_intercalate htk hop]
  intro c hc
  rcases mem_intercalate_elim hc with hs | ⟨p, hp, hcp⟩
  · rcases List.mem_singleton.mp hs with rfl
    decide
  · rcases List.mem_cons.mp hp with rfl | hpa
    · obtain ⟨oc, rfl, hoc⟩ := opcode_shape hop
      rcases List.mem_singleton.mp hcp with rfl
      exact hoc
    · exact ((cleanToken_spec (hclean p hpa)).2 c hcp).1

theorem packChunk_tokens {line t0 op : Str} {args : List Str}
    (htk : sourceTokens line = t0 :: args)
    (hop : lookupS REVERSE_SCRIPT_COMMANDS t0 = some op)
    (hopdot : op ≠ ".".toList)
    (hclean : ∀ a ∈ args, cleanToken a = true) :
    splitOnChar '.' (pyStrip (packChunk line)) = op :: args := by
  rw [pyStrip_eq_self (packChunk_chars htk hop hclean),
      packChunk_as_intercalate htk hop]
  apply splitOnChar_intercalate ?_ (by simp)
  intro t ht
  rcases List.mem_cons.mp ht with rfl | hta
  · obtain ⟨oc, rfl, _⟩ := opcode_shape hop
    intro hm
    rcases List.mem_singleton.mp hm with rfl
    exact hopdot rfl
  · intro hm
    exact ((cleanToken_spec (hclean t hta)).2 '.' hm).2.1 rfl

theorem comment_shape {command : Str} {args : List Str} {r : Resolver}
    {cm : Str} (hc : makeDecompiledParameterComment command args r = some cm) :
    ∃ tail, cm = ' ' :: '/' :: '/' :: tail := by
  unfold makeDecompiledParameterComment at hc
  cases hps : lookupS script_command_parameters command with
  | none => rw [hps] at hc; exact absurd hc (by simp)
  | some ps =>
    rw [hps] at hc
    simp only [] at hc
    by_cases h1 : command = "wizform".toList
    · rw [if_pos h1] at hc
      cases ha1 : args.get? 1 with
      | none => rw [ha1] at hc; exact absurd hc (by simp)
      | some a1 =>
        rw [ha1] at hc
        obtain rfl := (Option.some.injEq _ _).mp hc
        exact ⟨_, rfl⟩
    rw [if_neg h1] at hc
    by_cases h2 : (decide (command = "defaultWizForm".toList) ||
        decide (command = "ifIsWizform".toList)) = true
    · rw [if_pos h2] at hc
      cases ha0 : args.get? 0 with
      | none => rw [ha0] at hc; exact absurd hc (by simp)
      | some a0 =>
        rw [ha0] at hc
        obtain rfl := (Option.some.injEq _ _).mp hc
        exact ⟨_, rfl⟩
    rw [if_neg h2] at hc
    by_cases h3 : (decide (command = "say".toList) ||
        decide (command = "talk".toList)) = true
    · rw [if_pos h3] at hc
      cases ha0 : args.get? 0 with
      | none => rw [ha0] at hc; exact absurd hc (by simp)
      | some a0 =>
        rw [ha0] at hc
        obtain rfl := (Option.some.injEq _ _).mp hc
        exact ⟨_, rfl⟩
    rw [if_neg h3] at hc
    by_cases h4 : command = "choice".toList
    · rw [if_pos h4] at hc
      cases ha1 : args.get? 1 with
      | none => rw [ha1] at hc; exact absurd hc (by simp)
      | some a1 =>
        rw [ha1] at hc
        obtain rfl := (Option.some.injEq _ _).mp hc
        exact ⟨_, rfl⟩
    rw [if_neg h4] at hc
    by_cases h5 : (decide (command = "givePlayerCards".toList) ||
        decide (command = "setupGambling".toList) ||
        decide (command = "ifPlayerHasCards".toList) ||
        decide (command = "removePlayerCards".toList)) = true
    · rw [if_pos h5] at hc
      cases ha1 : args.get? 1 with
      | none => rw [ha1] at hc; exact absurd hc (by simp)
      | some a1 =>
        cases ha2 : args.get? 2 with
        | none => rw [ha1, ha2] at hc; exact absurd hc (by simp)
        | some a2 =>
          rw [ha1, ha2] at hc
          obtain rfl := (Option.some.injEq _ _).mp hc
          exact ⟨_, rfl⟩
    rw [if_neg h5] at hc
    by_cases h6 : command = "modifyWizform".toList
    · rw [if_pos h6] at hc
      cases ha0 : args.get? 0 with
      | none => rw [ha0] at hc; exact absurd hc (by simp)
      | some a0 =>
        rw [ha0] at hc
        simp only [] at hc
        by_cases ha : a0 = "7".toList
        · rw [if_pos ha] at hc
          cases ha1 : args.get? 1 with
          | none => rw [ha1] at hc; exact absurd hc (by simp)
          | some a1 =>
            rw [ha1] at hc
            obtain rfl := (Option.some.injEq _ _).mp hc
            exact ⟨_, rfl⟩
        · rw [if_neg ha] at hc
          cases hl : lookupS subcommand_descriptions a0 with
          | none =>
            rw [hl] at hc
            obtain rfl := (Option.some.injEq _ _).mp hc
            exact ⟨_, rfl⟩
          | some d =>
            rw [hl] at hc
            obtain rfl := (Option.some.injEq _ _).mp hc
            exact ⟨_, rfl⟩
    rw [if_neg h6] at hc
    by_cases h7 : command = "ifPlayerHasSpecials".toList
    · rw [if_pos h7] at hc
      cases hsp : makeDecompiledSpecialsComment args with
      | none => rw [hsp] at hc; exact absurd hc (by simp)
      | some sc =>
        rw [hsp] at hc
        obtain rfl := (Option.some.injEq _ _).mp hc
        exact ⟨_, rfl⟩
    rw [if_neg h7] at hc
    by_cases h8 : command = "lookAtPlayer".toList
    · rw [if_pos h8] at hc
      cases ha1 : args.get? 1 with
      | none => rw [ha1] at hc; exact absurd hc (by simp)
      | some a1 =>
        rw [ha1] at hc
        simp only [] at hc
        cases hl : lookupS lookAtModes a1 with
        | none =>
          rw [hl] at hc
          obtain rfl := (Option.some.injEq _ _).mp hc
          exact ⟨_, rfl⟩
        | some m =>
          rw [hl] at hc
          obtain rfl := (Option.some.injEq _ _).mp hc
          exact ⟨_, rfl⟩
    rw [if_neg h8] at hc
    by_cases h9 : (decide (command = "playAnimation".toList) ||
        decide (command = "playPlayerAnimation".toList)) = true
    · rw [if_pos h9] at hc
      cases ha0 : args.get? 0 with
      | none => rw [ha0] at hc; exact absurd hc (by simp)
      | some a0 =>
        rw [ha0] at hc
        obtain rfl := (Option.some.injEq _ _).mp hc
        exact ⟨_, rfl⟩
    rw [if_neg h9] at hc
    by_cases h10 : command = "startActorEffect".toList
    · rw [if_pos h10] at hc
      cases ha0 : args.get? 0 with
      | none => rw [ha0] at hc; exact absurd hc (by simp)
      | some a0 =>
        rw [ha0] at hc
        obtain rfl := (Option.some.injEq _ _).mp hc
        exact ⟨_, rfl⟩
    rw [if_neg h10] at hc
    obtain rfl := (Option.some.injEq _ _).mp hc
    exact ⟨_, rfl⟩

theorem sbw_spaces_prefix (pref : Str) (s : Str) (hp : ∀ c ∈ pref, c = ' ') :
    splitByWhitespace (pref ++ s) = splitByWhitespace s := by
  induction pref with
  | nil => rw [List.nil_append]
  | cons c pref' ih =>
    obtain rfl := hp c (List.mem_cons_self c pref')
    rw [List.cons_append, splitByWhitespace_space_cons]
    exact ih (fun d hd => hp d (List.mem_cons_of_mem ' ' hd))

theorem intercalate_cons_ne {t0 : Str} {args : List Str} (h : args ≠ []) :
    List.intercalate [' '] (t0 :: args) =
      t0 ++ ' ' :: List.intercalate [' '] args := by
  cases args with
  | nil => exact absurd rfl h
  | cons a args' =>
    rw [intercalate_cons₂]
    simp [List.append_assoc]

theorem ite_indent_spaces (P : Prop) [Decidable P] (n : Nat) :
    ∀ c ∈ (if P then (List.replicate n ' ' : Str) else []), c = ' ' := by
  split_ifs
  · intro c hc
    exact List.eq_of_mem_replicate hc
  · intro c hc
    exact absurd hc (List.not_mem_nil c)

theorem decomp_good_line {r : Resolver} {line : Str} (hr : resolverNF r)
    (hg : goodLine line = true) (ind : Nat) :
    ∃ body ind₂,
      decompileLine r ind (packChunk line) = some (body ++ ['\n'], ind₂) ∧
      '\n' ∉ body ∧ sourceTokens body = sourceTokens line := by
  obtain ⟨t0, args, op, htk, hop, hopdot, hclean, harity⟩ := goodLine_inv hg
  have htoks := packChunk_tokens htk hop hopdot hclean
  have hcmd : lookupS SCRIPT_COMMANDS op = some t0 := reverse_then_forward hop
  obtain ⟨ht0ne, ht0chars⟩ := mnemonic_shape hcmd
  have ht0nosp : ' ' ∉ t0 := by
    intro hm
    exact absurd (ht0chars ' ' hm).1 (by decide)
  have ht0nf : '\n' ∉ t0 := by
    intro hm
    exact absurd (ht0chars '\n' hm).1 (by decide)
  have hpref := ite_indent_spaces (¬ t0 = "else".toList)
    (if t0 = "endIf".toList then max (ind - 4) 0 else ind)
  have hprefnf : ∀ c ∈ (if ¬ t0 = "else".toList then
      (List.replicate (if t0 = "endIf".toList then max (ind - 4) 0 else ind)
        ' ' : Str) else []), c ≠ '\n' := by
    intro c hc
    rw [hpref c hc]
    decide
  simp only [decompileLine, htoks, hcmd]
  rcases harity with ⟨ps, hps, hlen⟩ | ⟨hps, rfl⟩
  · -- command with parameters: argument part plus annotation comment
    have hpos : 0 < ps.length := (params_shape hps).1
    have hargne : args ≠ [] := by
      intro he
      rw [he] at hlen
      simp at hlen
      omega
    obtain ⟨cm, hcm⟩ := Option.isSome_iff_exists.mp
      (comment_isSome r hps (Nat.le_of_eq hlen.symm))
    obtain ⟨tail, rfl⟩ := comment_shape hcm
    simp only [hps, hcm]
    rw [if_pos (show 0 < args.length by
      cases args with
      | nil => exact absurd rfl hargne
      | cons a args' => simp)]
    refine ⟨_, _, rfl, ?_, ?_⟩
    · -- the emitted body contains no newline
      apply nf_append
      apply nf_append
      · apply nf_append
        · intro hm; exact hprefnf '\n' hm rfl
        · exact ht0nf
      · intro hm
        rcases List.mem_cons.mp hm with he | hm2
        · exact absurd he (by decide)
        · rcases mem_intercalate_elim hm2 with hs | ⟨p, hp, hcp⟩
          · revert hs; decide
          · exact absurd ((cleanToken_spec (hclean p hp)).2 '\n' hcp).1
              (by decide)
      · exact comment_nf hr hcm
    · -- the body tokenizes back to the source tokens
      rw [htk]
      have hmarker : hasMarker
          (((if ¬ t0 = "else".toList then
              (List.replicate (if t0 = "endIf".toList then max (ind - 4) 0
                else ind) ' ' : Str) else []) ++ t0 ++
            ' ' :: List.intercalate [' '] args) ++ [' ']) = false := by
        apply hasMarker_of_no_slash
        intro c hc
        rcases List.mem_append.mp hc with hc1 | hc2
        · rcases List.mem_append.mp hc1 with hc3 | hc4
          · rcases List.mem_append.mp hc3 with hc5 | hc6
            · rw [hpref c hc5]; decide
            · exact (ht0chars c hc6).2.2
          · rcases List.mem_cons.mp hc4 with rfl | hc5
            · decide
            · rcases mem_intercalate_elim hc5 with hs | ⟨p, hp, hcp⟩
              · revert hs
                intro hs
                rcases List.mem_singleton.mp hs with rfl
                decide
              · exact ((cleanToken_spec (hclean p hp)).2 c hcp).2.2
        · rcases List.mem_singleton.mp hc2 with rfl
          decide
      unfold sourceTokens
      rw [stripComment_before_marker _ tail hmarker,
          splitByWhitespace_append_space, List.append_assoc,
          sbw_spaces_prefix _ _ hpref,
          show t0 ++ ' ' :: List.intercalate [' '] args =
            List.intercalate [' '] (t0 :: args) from
            (intercalate_cons_ne hargne).symm]
      apply splitByWhitespace_intercalate ?_ (by simp)
      intro t ht
      rcases List.mem_cons.mp ht with rfl | hta
      · exact ⟨ht0ne, ht0nosp⟩
      · obtain ⟨hne, hch⟩ := cleanToken_spec (hclean t hta)
        refine ⟨hne, ?_⟩
        intro hm
        exact absurd (hch ' ' hm).1 (by decide)
  · -- zero-arity command: no arguments, no comment
    simp only [hps]
    rw [show (if 0 < ([] : List Str).length then
          ' ' :: List.intercalate [' '] ([] : List Str) else []) = ([] : Str)
        from rfl]
    rw [List.append_nil]
    refine ⟨_, _, rfl, ?_, ?_⟩
    · apply nf_append
      · intro hm; exact hprefnf '\n' hm rfl
      · exact ht0nf
    · rw [htk]
      unfold sourceTokens
      rw [stripComment_of_no_marker (hasMarker_of_no_slash ?_),
          sbw_spaces_prefix _ _ hpref,
          splitByWhitespace_single ht0ne ht0nosp]
      intro c hc
      rcases List.mem_append.mp hc with hc1 | hc2
      · rw [hpref c hc1]; decide
      · exact (ht0chars c hc2).2.2

theorem compileLoop_good_tail :
    ∀ (lines : List Str) (index : Nat), 1 ≤ index →
      (∀ l ∈ lines, goodLine l = true) →
      compileLoop index lines [] [] =
        ((lines.map (fun l => '\n' :: packChunk l)).flatten, []) := by
  intro lines
  induction lines with
  | nil => intro index _ _; rfl
  | cons line rest ih =>
    intro index hge h
    simp only [compileLoop,
      compileStep_good (h line (List.mem_cons_self line rest))]
    rw [if_pos (show 0 < index by omega)]
    rw [compileLoop_acc (index + 1) rest ([] ++ ['\n'] ++ packChunk line) []]
    rw [ih (index + 1) (by omega)
        (fun l hl => h l (List.mem_cons_of_mem line hl))]
    simp [List.append_assoc]

theorem compileLoop_good_all {l0 : Str} {rest : List Str}
    (h : ∀ l ∈ l0 :: rest, goodLine l = true) :
    compileLoop 0 (l0 :: rest) [] [] =
      (packChunk l0 ++ (rest.map (fun l => '\n' :: packChunk l)).flatten,
       []) := by
  simp only [compileLoop, compileStep_good (h l0 (List.mem_cons_self l0 rest))]
  rw [if_neg (by omega : ¬ 0 < 0)]
  rw [compileLoop_acc 1 rest ([] ++ [] ++ packChunk l0) []]
  rw [compileLoop_good_tail rest 1 (le_refl 1)
      (fun l hl => h l (List.mem_cons_of_mem l0 hl))]
  simp

theorem split_packed :
    ∀ (cs : List Str) (c : Str), '\n' ∉ c → (∀ d ∈ cs, '\n' ∉ d) →
      splitOnChar '\n' (c ++ (cs.map (fun d => '\n' :: d)).flatten ++ ['\n']) =
        (c :: cs) ++ [[]] := by
  intro cs
  induction cs with
  | nil =>
    intro c hc _
    simp only [List.map_nil, List.flatten_nil, List.append_nil]
    rw [splitOnChar_append_sep, splitOnChar_eq_single hc]
  | cons d cs' ih =>
    intro c hc hds
    simp only [List.map_cons, List.flatten_cons]
    rw [show c ++ (('\n' :: d) ++ (cs'.map (fun e => '\n' :: e)).flatten) ++
          ['\n'] =
        c ++ '\n' :: (d ++ (cs'.map (fun e => '\n' :: e)).flatten ++ ['\n'])
        from by simp]
    rw [splitOnChar_first hc]
    rw [ih d (hds d (List.mem_cons_self d cs'))
        (fun e he => hds e (List.mem_cons_of_mem d he))]
    rfl

theorem split_outputs :
    ∀ (bodies : List Str), (∀ b ∈ bodies, '\n' ∉ b) →
      splitOnChar '\n' ((bodies.map (fun b => b ++ ['\n'])).flatten) =
        bodies ++ [[]] := by
  intro bodies
  induction bodies with
  | nil => intro _; rfl
  | cons b bs ih =>
    intro h
    simp only [List.map_cons, List.flatten_cons]
    rw [show (b ++ ['\n']) ++ ((bs.map (fun e => e ++ ['\n'])).flatten) =
          b ++ '\n' :: ((bs.map (fun e => e ++ ['\n'])).flatten) from by simp]
    rw [splitOnChar_first (h b (List.mem_cons_self b bs))]
    rw [ih (fun e he => h e (List.mem_cons_of_mem b he))]
    rfl

theorem empty_line_passthrough (r : Resolver) (ind : Nat) :
    decompileLine r ind [] = some ([] ++ ['\n'], ind) := by
  simp only [decompileLine,
    show splitOnChar '.' (pyStrip []) = [([] : Str)] from rfl,
    show lookupS SCRIPT_COMMANDS ([] : Str) = none from by decide]

theorem decompileLoop_good {r : Resolver} (lines : List Str) :
    ∀ (ind : Nat) (acc : Str), resolverNF r →
      (∀ l ∈ lines, goodLine l = true) →
      ∃ bodies : List Str,
        decompileLoop r ind (lines.map packChunk ++ [[]]) acc =
          some (acc ++ ((bodies ++ [[]]).map (fun b => b ++ ['\n'])).flatten) ∧
        bodies.map sourceTokens = lines.map sourceTokens ∧
        ∀ b ∈ bodies, '\n' ∉ b := by
  induction lines with
  | nil =>
    intro ind acc _ _
    refine ⟨[], ?_, rfl, by simp⟩
    simp only [List.map_nil, List.nil_append, decompileLoop,
      empty_line_passthrough]
    simp [decompileLoop]
  | cons line rest ih =>
    intro ind acc hr h
    obtain ⟨body, ind₂, hline, hnf, htok⟩ :=
      decomp_good_line hr (h line (List.mem_cons_self line rest)) ind
    simp only [List.map_cons, List.cons_append, decompileLoop, hline]
    obtain ⟨bodies, hloop, hmap, hbnf⟩ := ih ind₂ (acc ++ (body ++ ['\n'])) hr
      (fun l hl => h l (List.mem_cons_of_mem line hl))
    refine ⟨body :: bodies, ?_, ?_, ?_⟩
    · rw [show (List.map packChunk rest).append [[]] =
          List.map packChunk rest ++ [[]] from rfl, hloop]
      simp [List.append_assoc]
    · simp only [List.map_cons, hmap, htok]
    · intro b hb
      rcases List.mem_cons.mp hb with rfl | hb2
      · exact hnf
      · exact hbnf b hb2

/-- C2 (amended): the round-trip holds for every script whose every line is a
known mnemonic with exactly its required number of clean argument tokens —
nonempty, whitespace-free, and containing neither `.` (the packed argument
separator) nor `/` (the comment opener) — whose mnemonic's opcode is not the
`.` character (`catchWizform`), with no blank or comment-only lines, for any
resolver returning newline-free strings: compilation succeeds, decompiling
the packed output succeeds, and the decompiled text carries the same
mnemonics with the same argument tokens in the same order (indentation and
appended comments aside). -/
theorem c2_amended (r : Resolver) (script : Str) (hr : resolverNF r)
    (h : ∀ line ∈ splitOnChar '\n' script, goodLine line = true) :
    ∃ packed out, compile script = .ok packed ∧
      decompile r packed = some out ∧
      extractCommands out = (splitOnChar '\n' script).map sourceTokens := by
  cases hl : splitOnChar '\n' script with
  | nil => exact absurd hl (splitOnChar_ne_nil '\n' script)
  | cons l0 rest =>
    rw [hl] at h
    have hloop := compileLoop_good_all h
    have hpk : compile script = .ok (packChunk l0 ++
        (rest.map (fun l => '\n' :: packChunk l)).flatten ++ ['\n']) := by
      unfold compile
      rw [hl, hloop]
      rfl
    have hchnf : ∀ l ∈ l0 :: rest, '\n' ∉ packChunk l := by
      intro l hlm hm
      obtain ⟨t0, args, op, htk, hop, _, hclean, _⟩ := goodLine_inv (h l hlm)
      exact absurd (packChunk_chars htk hop hclean '\n' hm) (by decide)
    have hsplit : splitOnChar '\n' (packChunk l0 ++
        (rest.map (fun l => '\n' :: packChunk l)).flatten ++ ['\n']) =
        (l0 :: rest).map packChunk ++ [[]] := by
      rw [show rest.map (fun l => '\n' :: packChunk l) =
          (rest.map packChunk).map (fun d => '\n' :: d) from by
            rw [List.map_map]
            rfl]
      rw [split_packed (rest.map packChunk) (packChunk l0)
          (hchnf l0 (List.mem_cons_self l0 rest)) ?_]
      · rfl
      · intro d hd
        obtain ⟨l, hlm, rfl⟩ := List.mem_map.mp hd
        exact hchnf l (List.mem_cons_of_mem l0 hlm)
    obtain ⟨bodies, hdec, hmap, hbnf⟩ :=
      decompileLoop_good (l0 :: rest) 0 [] hr h
    refine ⟨_, [] ++ ((bodies ++ [[]]).map (fun b => b ++ ['\n'])).flatten,
      hpk, ?_, ?_⟩
    · unfold decompile
      rw [hsplit]
      exact hdec
    · unfold extractCommands
      rw [List.nil_append]
      rw [split_outputs (bodies ++ [[]]) ?_]
      · have hfront : List.filter (fun t => !t.isEmpty)
            ((l0 :: rest).map sourceTokens) =
            (l0 :: rest).map sourceTokens := by
          rw [List.filter_eq_self]
          intro t ht
          obtain ⟨l, hlm, rfl⟩ := List.mem_map.mp ht
          obtain ⟨t0, args, op, htk, _⟩ := goodLine_inv (h l hlm)
          rw [htk]
          rfl
        rw [List.map_append, List.map_append, hmap,
            List.filter_append, List.filter_append, hfront]
        simp [show sourceTokens ([] : Str) = [] from rfl]
      · intro b hb
        rcases List.mem_append.mp hb with hb1 | hb2
        · exact hbnf b hb1
        · rcases List.mem_singleton.mp hb2 with rfl
          simp

/-- Witness for the amended C2: a three-command script with nested block
structure round-trips through compile and decompile. -/
theorem c2_amended_witness :
    ∃ packed out,
      compile "ifTriggerIsActive 7\nsay A B\nendIf".toList = .ok packed ∧
      decompile nullResolver packed = some out ∧
      extractCommands out =
        (splitOnChar '\n' "ifTriggerIsActive 7\nsay A B\nendIf".toList).map
          sourceTokens :=
  c2_amended nullResolver "ifTriggerIsActive 7\nsay A B\nendIf".toList
    nullResolver_nf (by decide)
